import Mathlib

/-! AppScope: injection and bash allocator remediation.

A shallow embedding of `src/inject.c` and `src/bashmem.c`.

* Addresses and machine words are natural numbers, reduced modulo `2 ^ 64`
  wherever the C code computes in a 64-bit type.
* A process address space is a total map from addresses to bytes.
* Text (C strings, the contents of `/proc/<pid>/maps`) is a list of bytes.
* Values the C code leaves uninitialised (fresh `malloc` memory, unassigned
  locals) are explicit arguments of the definitions.
-/

set_option maxRecDepth 1000000

namespace Scope

/-! ## Machine integers and memory -/

/-- A process address space: the byte stored at every address. -/
abbrev Mem := Nat → Nat

/-- The value of a 64-bit pattern read as `int64_t`. -/
def toInt64 (n : Nat) : Int :=
  if n % 2 ^ 64 < 2 ^ 63 then ((n % 2 ^ 64 : Nat) : Int) else ((n % 2 ^ 64 : Nat) : Int) - 2 ^ 64

/-- The 64-bit pattern of an integer (conversion to `uint64_t` or to a pointer). -/
def wrap64 (z : Int) : Nat := (z % 2 ^ 64).toNat

/-- Addition in `int64_t`, wrapping as x86-64 does. -/
def addInt64 (a b : Int) : Int := toInt64 (wrap64 (a + b))

/-- The byte at address `a`, as an unsigned value. -/
def readByte (m : Mem) (a : Nat) : Nat := m a % 256

/-- The value of `*(char *)a`: one byte, sign-extended (`char` is signed on x86-64). -/
def readChar (m : Mem) (a : Nat) : Int :=
  if readByte m a < 128 then (readByte m a : Int) else (readByte m a : Int) - 256

/-- The value of `*(int *)a`: four bytes, little-endian, sign-extended. -/
def readInt32 (m : Mem) (a : Nat) : Int :=
  let u : Nat := readByte m a + 256 * readByte m (a + 1) + 256 ^ 2 * readByte m (a + 2)
    + 256 ^ 3 * readByte m (a + 3)
  if u < 2 ^ 31 then (u : Int) else (u : Int) - 2 ^ 32

/-! ## bashmem.c: resolving the internal allocator entries -/

/-- The fields of distorm's `_DecodedInst` that `bashMemFuncsFound` reads. -/
structure DecodedInst where
  mnemonic : String
  size : Nat
  offset : Nat
deriving DecidableEq, Repr

/-- The return codes of `distorm_decode`. -/
inductive DecodeResult where
  | DECRES_NONE
  | DECRES_SUCCESS
  | DECRES_MEMORYERR
  | DECRES_INPUTERR
deriving DecidableEq, Repr

/-- A row of `bash_mem_func` (`patch_info_t`); `0` is the null pointer. -/
structure PatchInfo where
  name : String
  fn_ptr : Nat
  external_addr : Nat
  internal_addr : Nat
deriving DecidableEq, Repr

/-- The capacity of the instruction array handed to `distorm_decode`. -/
def MAX_INST : Nat := 15

/-- The loop test of the search for the tail jump: mnemonic `JMP`, size 5 or 2. -/
def isJmpCandidate (inst : DecodedInst) : Bool :=
  inst.mnemonic == "JMP" && (inst.size == 5 || inst.size == 2)

/-- The search loop `for (j=0; j<asm_count; j++)`: the instruction it breaks at,
or `none` when it runs to `j == asm_count`. -/
def findJmp : List DecodedInst → Option DecodedInst
  | [] => none
  | inst :: rest => if isJmpCandidate inst then some inst else findJmp rest

/-- The destination computed from the instruction the search stopped at
(`switch (inst->size)` and the two additions); `none` is the `default:
continue` arm. The displacement is read from the process's own memory at
`inst->offset + 1`. -/
def jmpTarget (m : Mem) (inst : DecodedInst) : Option Nat :=
  let addr : Int := toInt64 inst.offset
  let jmp_offset : Option Int :=
    if inst.size = 5 then some (readInt32 m (wrap64 (addr + 1)))
    else if inst.size = 2 then some (readChar m (wrap64 (addr + 1)))
    else none
  match jmp_offset with
  | none => none
  | some off =>
    let addr1 := addInt64 addr off
    let addr2 := addInt64 addr1 (inst.size : Int)
    some (wrap64 addr2)

/-- What `bashMemFuncsFound` consults outside its own table. -/
structure BashEnv where
  /-- Result of `g_fn.dlopen(NULL, RTLD_LAZY)`; `0` is `NULL`. -/
  exe_handle : Nat
  /-- Result of `dlsym(exe_handle, name)`; `0` is `NULL`. -/
  dlsym : String → Nat
  /-- Result of `distorm_decode` on the code at an address. -/
  decode : Nat → DecodeResult × List DecodedInst
  /-- The memory of the bash process. -/
  mem : Mem

/-- One iteration of the loop over `bash_mem_func`: the updated row and whether
`num_found` was incremented. -/
def bashMemFuncStep (env : BashEnv) (func : PatchInfo) : PatchInfo × Bool :=
  let func_ptr := env.dlsym func.name
  if func_ptr = 0 then (func, false)
  else
    let rc := (env.decode func_ptr).1
    let asm_inst := (env.decode func_ptr).2.take MAX_INST
    if rc = DecodeResult.DECRES_INPUTERR then (func, false)
    else
      match findJmp asm_inst with
      | none => (func, false)
      | some inst =>
        match jmpTarget env.mem inst with
        | none => (func, false)
        | some addr =>
          ({ func with external_addr := func_ptr, internal_addr := addr }, true)

/-- The loop of `bashMemFuncsFound` over the table: the table afterwards and
`num_found`. -/
def bashMemFuncsLoop (env : BashEnv) : List PatchInfo → List PatchInfo × Nat
  | [] => ([], 0)
  | func :: rest =>
    let r := bashMemFuncStep env func
    let rs := bashMemFuncsLoop env rest
    (r.1 :: rs.1, (if r.2 then 1 else 0) + rs.2)

/-- The function `bashMemFuncsFound`: the table afterwards and the returned flag. -/
def bashMemFuncsFound (env : BashEnv) (table : List PatchInfo) : List PatchInfo × Bool :=
  if env.exe_handle = 0 then (table, false)
  else
    let r := bashMemFuncsLoop env table
    (r.1, r.2 == table.length)

/-- The table `bash_mem_func` as built; the replacement function pointers are
nonzero addresses supplied by the caller. -/
def bash_mem_func (fn : String → Nat) : List PatchInfo :=
  ["malloc", "realloc", "free", "memalign", "cfree"].map
    (fun n => { name := n, fn_ptr := fn n, external_addr := 0, internal_addr := 0 })

/-- Memory holding the given bytes at `base`, zero elsewhere. -/
def memOfBytes (base : Nat) (bytes : List Nat) : Mem :=
  fun a => if base ≤ a then bytes.getD (a - base) 0 else 0

/-! ## C library text functions used by inject.c -/

/-- How a call into the injector ends. -/
inductive Outcome (α : Type) where
  /-- The function returned this value. -/
  | ok (val : α)
  /-- The function called `exit` with this status. -/
  | exit (code : Nat)
  /-- The function wrote past the end of a fixed-size array. -/
  | overrun
deriving DecidableEq, Repr

/-- The test `isspace` for the C locale. -/
def isspace (c : Nat) : Bool := c == 32 || (9 ≤ c && c ≤ 13)

/-- The value of a hexadecimal digit character, if it is one. -/
def hexDigitVal (c : Nat) : Option Nat :=
  if 48 ≤ c ∧ c ≤ 57 then some (c - 48)
  else if 97 ≤ c ∧ c ≤ 102 then some (c - 87)
  else if 65 ≤ c ∧ c ≤ 70 then some (c - 55)
  else none

/-- The test `isxdigit`. -/
def isxdigit (c : Nat) : Bool := (hexDigitVal c).isSome

/-- The string a `char` buffer holds: its bytes up to the first NUL. -/
def cstr (buf : List Nat) : List Nat := buf.takeWhile (fun c => c != 0)

/-- The length `strlen` reports for a buffer. -/
def strlen (buf : List Nat) : Nat := (cstr buf).length

/-- Whether `strstr haystack needle` returns a non-null pointer. -/
def strstr : List Nat → List Nat → Bool
  | [], needle => needle.isEmpty
  | c :: rest, needle => needle.isPrefixOf (c :: rest) || strstr rest needle

/-- The body of `fgets`: up to `room` bytes, stopping after a newline; the bytes
stored and the bytes left in the stream. -/
def fgetsAux : Nat → List Nat → List Nat × List Nat
  | 0, s => ([], s)
  | _ + 1, [] => ([], [])
  | room + 1, c :: s =>
    if c = 10 then ([c], s) else ((fgetsAux room s).1.cons c, (fgetsAux room s).2)

/-- The call `fgets(buf, n, fd)`: `none` at end of file, otherwise the bytes
stored in `buf` and the bytes left in the stream. -/
def fgets (n : Nat) (s : List Nat) : Option (List Nat × List Nat) :=
  match s with
  | [] => none
  | _ :: _ => some (fgetsAux (n - 1) s)

/-- The successive buffers a `while (fgets(buf, n, fd))` loop sees, given a
bound on the number of iterations. -/
def fgetsLinesAux (n : Nat) : Nat → List Nat → List (List Nat)
  | 0, _ => []
  | fuel + 1, s =>
    match fgets n s with
    | none => []
    | some (line, rest) => line :: fgetsLinesAux n fuel rest

/-- The successive buffers a `while (fgets(buf, n, fd))` loop sees on a file;
every call consumes at least one byte, so the file's length bounds the loop. -/
def fgetsLines (n : Nat) (s : List Nat) : List (List Nat) := fgetsLinesAux n s.length s

/-- The number a run of hexadecimal digits denotes. -/
def hexValue (ds : List Nat) : Nat :=
  ds.foldl (fun acc c => acc * 16 + (hexDigitVal c).getD 0) 0

/-- Removes an optional sign: whether it was `-`, and the remaining text. -/
def takeSign (s : List Nat) : Bool × List Nat :=
  match s with
  | [] => (false, [])
  | c :: t => if c = 45 then (true, t) else if c = 43 then (false, t) else (false, c :: t)

/-- The result of `strtoul`/`strtoull` for a digit run of value `v`: overflow
saturates, a minus sign negates modulo `2 ^ 64`. -/
def ulConv (neg : Bool) (v : Nat) : Nat :=
  if 2 ^ 64 ≤ v then 2 ^ 64 - 1 else if neg then (2 ^ 64 - v) % 2 ^ 64 else v

/-- The value of `strtoull(s, NULL, 16)` in glibc: leading white space, an
optional sign, an optional `0x`, then hexadecimal digits (`0` if there are none). -/
def strtoull16 (s : List Nat) : Nat :=
  let s1 := (cstr s).dropWhile isspace
  let sg := takeSign s1
  let s3 := match sg.2 with
    | c0 :: c :: t => if c0 = 48 ∧ (c = 120 ∨ c = 88) then t else sg.2
    | _ => sg.2
  ulConv sg.1 (hexValue (s3.takeWhile isxdigit))

/-- The `scanf` directive `%lx` (and `%x`) as glibc reads it: leading white
space, an optional sign, an optional `0x`, then hexadecimal digits; `none` is a
matching failure, otherwise the converted value and the unread text. -/
def scanHex (s : List Nat) : Option (Nat × List Nat) :=
  let s1 := s.dropWhile isspace
  let sg := takeSign s1
  let ld : Bool × List Nat := match sg.2 with
    | [] => (false, [])
    | c0 :: t0 =>
      if c0 = 48 then
        match t0 with
        | [] => (true, [])
        | c :: t => if c = 120 ∨ c = 88 then (true, t) else (true, c :: t)
      else (false, c0 :: t0)
  let ds := ld.2.takeWhile isxdigit
  if ld.1 = false ∧ ds = [] then none
  else some (ulConv sg.1 (hexValue ds), ld.2.dropWhile isxdigit)

/-- The `scanf` directive `%s`: leading white space, then the run of
non-white-space bytes; `none` when the input ends first. -/
def scanToken (s : List Nat) : Option (List Nat × List Nat) :=
  let s1 := s.dropWhile isspace
  let tok := s1.takeWhile (fun c => !isspace c)
  if tok = [] then none else some (tok, s1.dropWhile (fun c => !isspace c))

/-- What one `sscanf(line, "%lx-%*x %s %*s %s %*d", &addr, perms, str)` stores:
`none` for an argument it does not reach. -/
structure Scanned where
  addr : Option Nat
  perms : Option (List Nat)
  str : Option (List Nat)
deriving DecidableEq, Repr

/-- The call `sscanf(line, "%lx-%*x %s %*s %s %*d", &addr, perms, str)`. -/
def sscanfMaps (line : List Nat) : Scanned :=
  match scanHex (cstr line) with
  | none => ⟨none, none, none⟩
  | some (a, s1) =>
    match s1 with
    | 45 :: s2 =>
      match scanHex s2 with
      | none => ⟨some a, none, none⟩
      | some (_, s3) =>
        match scanToken s3 with
        | none => ⟨some a, none, none⟩
        | some (perms, s4) =>
          match scanToken s4 with
          | none => ⟨some a, some perms, none⟩
          | some (_, s5) =>
            match scanToken s5 with
            | none => ⟨some a, some perms, none⟩
            | some (str, _) => ⟨some a, some perms, some str⟩
    | _ => ⟨some a, none, none⟩

/-! ## inject.c: reading `/proc/<pid>/maps` -/

/-- The loop of `findLibrary` over the buffers `fgets` fills. -/
def findLibraryLoop (library : List Nat) : List (List Nat) → Nat
  | [] => 0
  | buffer :: rest =>
    if strstr (cstr buffer) library then strtoull16 buffer else findLibraryLoop library rest

/-- The function `findLibrary`; `maps` is the content of `/proc/<pid>/maps`, or
`none` when it cannot be opened. -/
def findLibrary (maps : Option (List Nat)) (library : List Nat) : Outcome Nat :=
  match maps with
  | none => Outcome.exit 1
  | some s => Outcome.ok (findLibraryLoop library (fgetsLines 9076 s))

/-- The loop of `freeSpaceAddr` over the buffers `fgets` fills; `addr` and
`perms` are the current contents of the two locals. `perms` has room for 4
bytes and `str` for 19, besides the terminator. -/
def freeSpaceLoop : List (List Nat) → Nat → List Nat → Outcome Nat
  | [], addr, _ => Outcome.ok addr
  | line :: rest, addr, perms =>
    let sc := sscanfMaps line
    if 4 < (sc.perms.getD []).length ∨ 19 < (sc.str.getD []).length then Outcome.overrun
    else
      let addr1 := sc.addr.getD addr
      let perms1 := sc.perms.getD perms
      if strstr perms1 [120] then Outcome.ok addr1 else freeSpaceLoop rest addr1 perms1

/-- The function `freeSpaceAddr`; `addr0` and `perms0` are what the
uninitialised locals `addr` and `perms` hold on entry. -/
def freeSpaceAddr (maps : Option (List Nat)) (addr0 : Nat) (perms0 : List Nat) : Outcome Nat :=
  match maps with
  | none => Outcome.exit 1
  | some s => freeSpaceLoop (fgetsLines 850 s) addr0 perms0

/-- The bytes of an ASCII string literal. -/
def bytes (s : String) : List Nat := s.toList.map Char.toNat

/-! ## inject.c: ptrace -/

/-- The 8-byte little-endian word stored at `a`. -/
def peekWord (m : Mem) (a : Nat) : Nat :=
  readByte m a + 256 * readByte m (a + 1) + 256 ^ 2 * readByte m (a + 2)
    + 256 ^ 3 * readByte m (a + 3) + 256 ^ 4 * readByte m (a + 4) + 256 ^ 5 * readByte m (a + 5)
    + 256 ^ 6 * readByte m (a + 6) + 256 ^ 7 * readByte m (a + 7)

/-- The memory after the 8-byte word `w` is stored at `a`, little-endian. -/
def pokeWord (m : Mem) (a w : Nat) : Mem :=
  fun x => if a ≤ x ∧ x < a + 8 then w / 256 ^ (x - a) % 256 else m x

/-- The register file `struct user_regs_struct` of x86-64. -/
structure Regs where
  r15 : Nat
  r14 : Nat
  r13 : Nat
  r12 : Nat
  rbp : Nat
  rbx : Nat
  r11 : Nat
  r10 : Nat
  r9 : Nat
  r8 : Nat
  rax : Nat
  rcx : Nat
  rdx : Nat
  rsi : Nat
  rdi : Nat
  orig_rax : Nat
  rip : Nat
  cs : Nat
  eflags : Nat
  rsp : Nat
  ss : Nat
  fs_base : Nat
  gs_base : Nat
  ds : Nat
  es : Nat
  fs : Nat
  gs : Nat
deriving DecidableEq, Repr

/-- The target process as ptrace sees it. -/
structure Tracee where
  mem : Mem
  regs : Regs

/-- The ptrace requests the injector issues. -/
inductive PtraceReq where
  | ATTACH
  | GETREGS
  | PEEKTEXT (addr : Nat)
  | POKETEXT (addr word : Nat)
  | SETREGS (regs : Regs)
  | CONT
  | DETACH
deriving DecidableEq, Repr

/-- The target, whether the injector is attached to it, and the requests
issued so far, oldest first. A request made while not attached fails and
changes nothing. -/
structure World where
  tracee : Tracee
  attached : Bool
  log : List PtraceReq

/-- What `inject` consults besides its arguments. -/
structure InjectEnv where
  /-- Whether `ptrace(PTRACE_ATTACH)` succeeds. -/
  attachOk : Bool
  /-- The value `waitpid` returns after the attach. -/
  attachWait : Int
  /-- The status `waitpid` stores in `waitpidstatus` after the attach. -/
  attachStatus : Nat
  /-- The content of `/proc/<pid>/maps`, `none` when it cannot be opened. -/
  maps : Option (List Nat)
  /-- The uninitialised locals `addr` and `perms` of `freeSpaceAddr`. -/
  addr0 : Nat
  perms0 : List Nat
  /-- The uninitialised local `oldregs`. -/
  oldregs0 : Regs
  /-- The uninitialised local `status`. -/
  status0 : Nat
  /-- The content of the block `malloc(256)` returns. -/
  heap : Nat → Nat
  /-- The injector's memory after the terminator of `path`. -/
  pathTail : Nat → Nat
  /-- The injector's memory from `(&injectme) + 4` on. -/
  thunk : Nat → Nat
  /-- The run of the target from `PTRACE_CONT` until `waitpid` returns: its
  state then, and the wait status. -/
  resume : Tracee → Tracee × Nat

/-- The request `PTRACE_PEEKTEXT`: the word read, `2 ^ 64 - 1` (that is `-1`) on failure. -/
def ptracePeek (w : World) (addr : Nat) : World × Nat :=
  (⟨w.tracee, w.attached, w.log ++ [PtraceReq.PEEKTEXT addr]⟩,
    if w.attached then peekWord w.tracee.mem addr else 2 ^ 64 - 1)

/-- The request `PTRACE_POKETEXT`: the flag is `false` when it returns `-1`. -/
def ptracePoke (w : World) (addr word : Nat) : World × Bool :=
  if w.attached then
    (⟨⟨pokeWord w.tracee.mem addr word, w.tracee.regs⟩, true,
      w.log ++ [PtraceReq.POKETEXT addr word]⟩, true)
  else (⟨w.tracee, false, w.log ++ [PtraceReq.POKETEXT addr word]⟩, false)

/-- The request `PTRACE_GETREGS` into a variable holding `cur`. -/
def ptraceGetRegs (w : World) (cur : Regs) : World × Regs :=
  (⟨w.tracee, w.attached, w.log ++ [PtraceReq.GETREGS]⟩,
    if w.attached then w.tracee.regs else cur)

/-- The request `PTRACE_SETREGS`. -/
def ptraceSetRegs (w : World) (regs : Regs) : World :=
  ⟨if w.attached then ⟨w.tracee.mem, regs⟩ else w.tracee, w.attached,
    w.log ++ [PtraceReq.SETREGS regs]⟩

/-- The request `PTRACE_CONT` followed by `waitpid(pid, &status, WUNTRACED)`:
the world when `waitpid` returns, and `status`. -/
def ptraceCont (env : InjectEnv) (w : World) : World × Nat :=
  if w.attached then
    (⟨(env.resume w.tracee).1, true, w.log ++ [PtraceReq.CONT]⟩, (env.resume w.tracee).2)
  else (⟨w.tracee, false, w.log ++ [PtraceReq.CONT]⟩, env.status0)

/-- The request `PTRACE_DETACH`. -/
def ptraceDetach (w : World) : World :=
  ⟨w.tracee, false, w.log ++ [PtraceReq.DETACH]⟩

/-- The loop of `ptraceRead`; `i` is the loop counter and `data` the buffer so far. -/
def ptraceReadLoop (addr len : Nat) : Nat → Nat → World → (Nat → Nat) → World × Option (Nat → Nat)
  | 0, _, w, data => (w, some data)
  | fuel + 1, i, w, data =>
    if i < len then
      if (ptracePeek w ((addr + i) % 2 ^ 64)).2 = 2 ^ 64 - 1 then
        ((ptracePeek w ((addr + i) % 2 ^ 64)).1, none)
      else
        ptraceReadLoop addr len fuel (i + 8) (ptracePeek w ((addr + i) % 2 ^ 64)).1
          (fun k => if k = i then (ptracePeek w ((addr + i) % 2 ^ 64)).2 % 256 else data k)
    else (w, some data)

/-- The function `ptraceRead(pid, addr, data, len)`: the buffer afterwards, or
`none` when it calls `exit(1)`. The counter advances by 8, so `len` iterations
are enough. -/
def ptraceRead (w : World) (addr : Nat) (data : Nat → Nat) (len : Nat) :
    World × Option (Nat → Nat) :=
  ptraceReadLoop addr len len 0 w data

/-- The loop of `ptraceWrite`; `data` is the injector's memory from the source
pointer on. -/
def ptraceWriteLoop (addr len : Nat) (data : Nat → Nat) : Nat → Nat → World → World × Bool
  | 0, _, w => (w, true)
  | fuel + 1, i, w =>
    if i < len then
      if (ptracePoke w ((addr + i) % 2 ^ 64) (peekWord data i)).2 then
        ptraceWriteLoop addr len data fuel (i + 8)
          (ptracePoke w ((addr + i) % 2 ^ 64) (peekWord data i)).1
      else ((ptracePoke w ((addr + i) % 2 ^ 64) (peekWord data i)).1, false)
    else (w, true)

/-- The function `ptraceWrite(pid, addr, data, len)`; the flag is `false` when
it calls `exit(1)`. -/
def ptraceWrite (w : World) (addr : Nat) (data : Nat → Nat) (len : Nat) : World × Bool :=
  ptraceWriteLoop addr len data len 0 w

/-- The function `ptraceAttach(target)` and its return value; it stores the
wait status in `waitpidstatus` and does not read it. -/
def ptraceAttach (env : InjectEnv) (target : Int) (w : World) : World × Int :=
  if env.attachOk then
    (⟨w.tracee, true, w.log ++ [PtraceReq.ATTACH]⟩, if env.attachWait ≠ target then -1 else 0)
  else (⟨w.tracee, w.attached, w.log ++ [PtraceReq.ATTACH]⟩, -1)

/-- The macro `WIFSTOPPED`. -/
def WIFSTOPPED (status : Nat) : Bool := status % 256 == 127

/-- The macro `WSTOPSIG`. -/
def WSTOPSIG (status : Nat) : Nat := status / 256 % 256

/-- The signal number `SIGTRAP`. -/
def SIGTRAP : Nat := 5

/-- The flag `RTLD_LAZY`. -/
def RTLD_LAZY : Nat := 1

/-- The injector's memory at `path`: the string, its terminator, then `tail`. -/
def pathMem (path : List Nat) (tail : Nat → Nat) : Nat → Nat :=
  fun k => if k < path.length then path.getD k 0
    else if k = path.length then 0 else tail (k - path.length - 1)

/-- How `inject` ended and the world it left. -/
structure InjectResult where
  outcome : Outcome Unit
  world : World

/-- The function `inject(pid, dlopenAddr, path)`. -/
def inject (env : InjectEnv) (w : World) (pid : Int) (dlopenAddr : Nat) (path : List Nat) :
    InjectResult :=
  let w1 := (ptraceAttach env pid w).1
  let oldregs := (ptraceGetRegs w1 env.oldregs0).2
  let w2 := (ptraceGetRegs w1 env.oldregs0).1
  let regs := oldregs
  let oldcodeSize := 256
  match freeSpaceAddr env.maps env.addr0 env.perms0 with
  | Outcome.exit c => ⟨Outcome.exit c, w2⟩
  | Outcome.overrun => ⟨Outcome.overrun, w2⟩
  | Outcome.ok freeaddr =>
    match ptraceRead w2 freeaddr env.heap oldcodeSize with
    | (w3, none) => ⟨Outcome.exit 1, w3⟩
    | (w3, some oldcode) =>
      match ptraceWrite w3 freeaddr (pathMem path env.pathTail) (strlen path) with
      | (w4, false) => ⟨Outcome.exit 1, w4⟩
      | (w4, true) =>
        match ptraceWrite w4 ((freeaddr + 32) % 2 ^ 64) env.thunk 256 with
        | (w5, false) => ⟨Outcome.exit 1, w5⟩
        | (w5, true) =>
          let regs1 : Regs := { regs with
            rip := (freeaddr + 32) % 2 ^ 64, rax := dlopenAddr, rdi := freeaddr, rsi := RTLD_LAZY }
          let w6 := ptraceSetRegs w5 regs1
          let w7 := (ptraceCont env w6).1
          let status := (ptraceCont env w6).2
          if WIFSTOPPED status && WSTOPSIG status == SIGTRAP then
            let regs2 := (ptraceGetRegs w7 regs1).2
            let w8 := (ptraceGetRegs w7 regs1).1
            if regs2.rax ≠ 0 then
              match ptraceWrite w8 freeaddr oldcode oldcodeSize with
              | (w9, false) => ⟨Outcome.exit 1, w9⟩
              | (w9, true) =>
                let w10 := ptraceSetRegs w9 oldregs
                let w11 := ptraceDetach w10
                ⟨Outcome.ok (), w11⟩
            else ⟨Outcome.ok (), w8⟩
          else ⟨Outcome.exit 1, w7⟩

/-- What `injectScope` consults besides its arguments and what `inject` consults. -/
structure ScopeEnv extends InjectEnv where
  /-- The result of `dl_iterate_phdr(findLibld, &info)`: `none` when it returns
  0, otherwise the string read through `info.path` and `info.addr`. -/
  libdl : Option (List Nat × Nat)
  /-- The result of `dlsym(RTLD_DEFAULT, "dlopen")`; `0` is `NULL`. -/
  dlopenLocal : Nat
  /-- The content of `/proc/<pid>/maps` when `findLibrary` reads it. -/
  libMaps : Option (List Nat)

/-- The expression `remoteLib + (dlopenAddr - localLib)` in 64-bit pointer arithmetic. -/
def remoteDlopen (remoteLib dlopenAddr localLib : Nat) : Nat :=
  (remoteLib + (dlopenAddr + (2 ^ 64 - localLib % 2 ^ 64)) % 2 ^ 64) % 2 ^ 64

/-- How `injectScope` ended: its return value (or exit), the address it passed
to `inject` if it called it, and the world it left. -/
structure ScopeResult where
  ret : Outcome Int
  passed : Option Nat
  world : World

/-- The function `injectScope(pid, path)`. -/
def injectScope (env : ScopeEnv) (w : World) (pid : Int) (path : List Nat) : ScopeResult :=
  match env.libdl with
  | none => ⟨Outcome.ok (-1), none, w⟩
  | some info =>
    let localLib := info.2
    if env.dlopenLocal = 0 then ⟨Outcome.ok (-1), none, w⟩
    else
      match findLibrary env.libMaps info.1 with
      | Outcome.exit c => ⟨Outcome.exit c, none, w⟩
      | Outcome.overrun => ⟨Outcome.overrun, none, w⟩
      | Outcome.ok remoteLib =>
        let dlopenAddr := remoteDlopen remoteLib env.dlopenLocal localLib
        match (inject env.toInjectEnv w pid dlopenAddr path).outcome with
        | Outcome.ok _ => ⟨Outcome.ok 0, some dlopenAddr,
            (inject env.toInjectEnv w pid dlopenAddr path).world⟩
        | Outcome.exit c => ⟨Outcome.exit c, some dlopenAddr,
            (inject env.toInjectEnv w pid dlopenAddr path).world⟩
        | Outcome.overrun => ⟨Outcome.overrun, some dlopenAddr,
            (inject env.toInjectEnv w pid dlopenAddr path).world⟩

/-! ## inject.c: the two halves of `inject` -/

/-- The locals of `inject` when it has installed the staged registers and is
about to issue `PTRACE_CONT`. -/
structure Staged where
  world : World
  oldregs : Regs
  oldcode : Nat → Nat
  freeaddr : Nat
  regs : Regs

/-- The first half of `inject`, up to and including `PTRACE_SETREGS` of the
staged registers: either the run ended early, or the locals at that point. -/
def injectStage (env : InjectEnv) (w : World) (pid : Int) (dlopenAddr : Nat) (path : List Nat) :
    InjectResult ⊕ Staged :=
  let w1 := (ptraceAttach env pid w).1
  let oldregs := (ptraceGetRegs w1 env.oldregs0).2
  let w2 := (ptraceGetRegs w1 env.oldregs0).1
  let regs := oldregs
  let oldcodeSize := 256
  match freeSpaceAddr env.maps env.addr0 env.perms0 with
  | Outcome.exit c => Sum.inl ⟨Outcome.exit c, w2⟩
  | Outcome.overrun => Sum.inl ⟨Outcome.overrun, w2⟩
  | Outcome.ok freeaddr =>
    match ptraceRead w2 freeaddr env.heap oldcodeSize with
    | (w3, none) => Sum.inl ⟨Outcome.exit 1, w3⟩
    | (w3, some oldcode) =>
      match ptraceWrite w3 freeaddr (pathMem path env.pathTail) (strlen path) with
      | (w4, false) => Sum.inl ⟨Outcome.exit 1, w4⟩
      | (w4, true) =>
        match ptraceWrite w4 ((freeaddr + 32) % 2 ^ 64) env.thunk 256 with
        | (w5, false) => Sum.inl ⟨Outcome.exit 1, w5⟩
        | (w5, true) =>
          let regs1 : Regs := { regs with
            rip := (freeaddr + 32) % 2 ^ 64, rax := dlopenAddr, rdi := freeaddr, rsi := RTLD_LAZY }
          Sum.inr ⟨ptraceSetRegs w5 regs1, oldregs, oldcode, freeaddr, regs1⟩

/-- The second half of `inject`, from `PTRACE_CONT` on. -/
def injectFinish (env : InjectEnv) (st : Staged) : InjectResult :=
  let w7 := (ptraceCont env st.world).1
  let status := (ptraceCont env st.world).2
  if WIFSTOPPED status && WSTOPSIG status == SIGTRAP then
    let regs2 := (ptraceGetRegs w7 st.regs).2
    let w8 := (ptraceGetRegs w7 st.regs).1
    if regs2.rax ≠ 0 then
      match ptraceWrite w8 st.freeaddr st.oldcode 256 with
      | (w9, false) => ⟨Outcome.exit 1, w9⟩
      | (w9, true) =>
        let w10 := ptraceSetRegs w9 st.oldregs
        let w11 := ptraceDetach w10
        ⟨Outcome.ok (), w11⟩
    else ⟨Outcome.ok (), w8⟩
  else ⟨Outcome.exit 1, w7⟩

/-- The target addresses of the `PTRACE_POKETEXT` requests in a log. -/
def pokedAddrs : List PtraceReq → List Nat
  | [] => []
  | PtraceReq.POKETEXT addr _ :: rest => addr :: pokedAddrs rest
  | _ :: rest => pokedAddrs rest

/-- The requests `inject` issues while staging: attach, register read, peeks and pokes. -/
def stagingReq : PtraceReq → Bool
  | PtraceReq.ATTACH => true
  | PtraceReq.GETREGS => true
  | PtraceReq.PEEKTEXT _ => true
  | PtraceReq.POKETEXT _ _ => true
  | _ => false

/-! ## bashmem.c: the probe, the libc lookups and the hooks -/

/-- The macro `ELF64_ST_BIND`. -/
def ELF64_ST_BIND (val : Nat) : Nat := (val % 256) >>> 4

/-- The macro `ELF64_ST_TYPE`. -/
def ELF64_ST_TYPE (val : Nat) : Nat := val &&& 0xf

/-- The macro `ELF64_ST_VISIBILITY`. -/
def ELF64_ST_VISIBILITY (o : Nat) : Nat := o &&& 0x3

/-- The symbol binding `STB_GLOBAL`. -/
def STB_GLOBAL : Nat := 1

/-- The symbol type `STT_FUNC`. -/
def STT_FUNC : Nat := 2

/-- The symbol visibility `STV_DEFAULT`. -/
def STV_DEFAULT : Nat := 0

/-- What `func_found_in_executable` consults. -/
structure ProbeEnv where
  /-- Result of `g_fn.dlopen(NULL, RTLD_LAZY)`; `0` is `NULL`. -/
  exe_handle : Nat
  /-- Result of `dlsym(exe_handle, symbol)`; `0` is `NULL`. -/
  dlsym : String → Nat
  /-- Result of `dladdr1(ptr, &info, &lm, RTLD_DL_LINKMAP)`: `none` when it
  returns 0, otherwise the bytes at `lm->l_name`. -/
  linkMap : Nat → Option (List Nat)
  /-- Result of `dladdr1(ptr, &info, &es, RTLD_DL_SYMENT)`: `none` when it
  returns 0, otherwise `es->st_info` and `es->st_other`. -/
  symEnt : Nat → Option (Nat × Nat)

/-- The function `func_found_in_executable(symbol)`. -/
def func_found_in_executable (env : ProbeEnv) (symbol : String) : Bool :=
  if env.exe_handle = 0 then false
  else
    let symbol_ptr := env.dlsym symbol
    if symbol_ptr = 0 then false
    else
      match env.linkMap symbol_ptr, env.symEnt symbol_ptr with
      | some l_name, some (st_info, st_other) =>
        let symbol_type := ELF64_ST_TYPE st_info
        let symbol_binding := ELF64_ST_BIND st_info
        let symbol_visibility := ELF64_ST_VISIBILITY st_other
        symbol_binding == STB_GLOBAL && symbol_type == STT_FUNC
          && symbol_visibility == STV_DEFAULT && l_name.headD 0 == 0
      | _, _ => false

/-- Modelled from the spec: the helper `endsWith` (declared in `utils.h`) is not
among the sources; the spec has the process checked by whether the resolved name
of `/proc/self/exe` ends in a given string, so `endsWith(string, substring)` is
taken to tell whether the first string ends with the second, and to be false
for a null pointer. -/
def endsWith (string substring : Option (List Nat)) : Bool :=
  match string, substring with
  | some s, some t => (cstr t).isSuffixOf (cstr s)
  | _, _ => false

/-- The function `in_bash_process`; `exe_path` is what `osGetExePath` stores,
`none` for a null pointer. -/
def in_bash_process (exe_path : Option (List Nat)) : Bool :=
  endsWith exe_path (some (bytes "/bash"))

/-- The table `g_mem_fn`; `0` is the null pointer. -/
structure MemFn where
  malloc : Nat
  realloc : Nat
  free : Nat
  memalign : Nat
  cfree : Nat
deriving DecidableEq, Repr

/-- The function `glibcMemFuncsFound`; `dlsymNext` is `dlsym(RTLD_NEXT, ·)`. It
returns the table it fills and its result. -/
def glibcMemFuncsFound (dlsymNext : String → Nat) : MemFn × Bool :=
  let g : MemFn := ⟨dlsymNext "malloc", dlsymNext "realloc", dlsymNext "free",
    dlsymNext "memalign", dlsymNext "cfree"⟩
  (g, g.malloc != 0 && g.realloc != 0 && g.free != 0 && g.memalign != 0 && g.cfree != 0)

/-- The calls made into funchook. -/
inductive HookCall where
  | create
  | prepare (target fn : Nat)
  | install
deriving DecidableEq, Repr

/-- The results of the funchook calls. -/
structure HookEnv where
  /-- Whether `funchook_create` returns a handle. -/
  createOk : Bool
  /-- The return code of `funchook_prepare` for a target and a replacement. -/
  prepare : Nat → Nat → Int
  /-- The return code of `funchook_install`. -/
  install : Int

/-- The loop of `replaceBashMemFuncs`: `num_patched` and the calls made. -/
def replaceLoop (env : HookEnv) : List PatchInfo → Nat × List HookCall
  | [] => (0, [])
  | func :: rest =>
    ((if env.prepare func.internal_addr func.fn_ptr ≠ 0 then 0 else 1) + (replaceLoop env rest).1,
      HookCall.prepare func.internal_addr func.fn_ptr :: (replaceLoop env rest).2)

/-- The function `replaceBashMemFuncs`: its result and the calls made. -/
def replaceBashMemFuncs (env : HookEnv) (table : List PatchInfo) : Bool × List HookCall :=
  if env.createOk = false then (false, [HookCall.create])
  else
    (env.install == 0 && (replaceLoop env table).1 == table.length,
      HookCall.create :: (replaceLoop env table).2 ++ [HookCall.install])

/-- What `run_bash_mem_fix` consults. -/
structure FixEnv where
  /-- The lookup `dlsym(RTLD_NEXT, ·)`. -/
  dlsymNext : String → Nat
  bash : BashEnv
  hook : HookEnv

/-- What `run_bash_mem_fix` leaves: its result, `g_mem_fn`, `bash_mem_func` and
the funchook calls made. -/
structure FixResult where
  successful : Bool
  g_mem_fn : MemFn
  table : List PatchInfo
  hooks : List HookCall
deriving DecidableEq, Repr

/-- The function `run_bash_mem_fix`; `table` is `bash_mem_func` on entry. -/
def run_bash_mem_fix (env : FixEnv) (table : List PatchInfo) : FixResult :=
  let g := glibcMemFuncsFound env.dlsymNext
  if g.2 = false then ⟨false, g.1, table, []⟩
  else
    let b := bashMemFuncsFound env.bash table
    if b.2 = false then ⟨false, g.1, b.1, []⟩
    else
      let r := replaceBashMemFuncs env.hook b.1
      if r.1 = false then ⟨false, g.1, b.1, r.2⟩
      else ⟨true, g.1, b.1, r.2⟩

/-! ## The format of `/proc/<pid>/maps` -/

/-- One mapping, as the kernel lists it: `start-end perms offset dev inode pathname`. -/
structure MapEntry where
  start : Nat
  stop : Nat
  r : Bool
  w : Bool
  x : Bool
  shared : Bool
  offset : Nat
  major : Nat
  minor : Nat
  inode : Nat
  pathname : List Nat
deriving DecidableEq, Repr

/-- The character for a digit below 16, lower case. -/
def digitChar (d : Nat) : Nat := if d < 10 then 48 + d else 87 + d

/-- The digits of `n` in base `b`, most significant first, at most `fuel` of them. -/
def digitsOf (b : Nat) : Nat → Nat → List Nat
  | 0, _ => []
  | fuel + 1, n =>
    if n < b then [digitChar n] else digitsOf b fuel (n / b) ++ [digitChar (n % b)]

/-- The output of `%0<width>lx` for a number below `2 ^ 64`. -/
def fmtHex (width n : Nat) : List Nat :=
  List.replicate (width - (digitsOf 16 16 n).length) 48 ++ digitsOf 16 16 n

/-- The output of `%lu` for a number below `10 ^ 20`. -/
def fmtDec (n : Nat) : List Nat := digitsOf 10 20 n

/-- The four permission characters of a mapping. -/
def MapEntry.permString (e : MapEntry) : List Nat :=
  [if e.r then 114 else 45, if e.w then 119 else 45, if e.x then 120 else 45,
    if e.shared then 115 else 112]

/-- The device column, `major:minor`. -/
def MapEntry.devString (e : MapEntry) : List Nat :=
  fmtHex 2 e.major ++ 58 :: fmtHex 2 e.minor

/-- The columns after the device: the inode, then the pathname, padded to column 73. -/
def MapEntry.tailString (e : MapEntry) : List Nat :=
  let hd := fmtHex 8 e.start ++ 45 :: fmtHex 8 e.stop ++ 32 :: e.permString ++ 32 ::
    fmtHex 8 e.offset ++ 32 :: e.devString ++ 32 :: fmtDec e.inode ++ [32]
  fmtDec e.inode ++ 32 ::
    (if e.pathname = [] then [] else List.replicate (73 - hd.length) 32 ++ e.pathname)

/-- The line of the maps file for a mapping, without its newline. -/
def MapEntry.lineBody (e : MapEntry) : List Nat :=
  fmtHex 8 e.start ++ 45 :: fmtHex 8 e.stop ++ 32 :: e.permString ++ 32 ::
    fmtHex 8 e.offset ++ 32 :: e.devString ++ 32 :: e.tailString

/-- The line of the maps file for a mapping. -/
def MapEntry.render (e : MapEntry) : List Nat := e.lineBody ++ [10]

/-- The maps file listing the given mappings. -/
def renderMaps : List MapEntry → List Nat
  | [] => []
  | e :: es => e.render ++ renderMaps es

/-- A mapping the kernel can list: 64-bit addresses, offset and inode, a 12-bit
major and 20-bit minor device number, a pathname without NUL or newline. -/
def MapEntry.wellFormed (e : MapEntry) : Bool :=
  decide (e.start < 2 ^ 64) && decide (e.stop < 2 ^ 64) && decide (e.offset < 2 ^ 64)
    && decide (e.major < 2 ^ 12) && decide (e.minor < 2 ^ 20) && decide (e.inode < 2 ^ 64)
    && e.pathname.all (fun c => c != 0 && c != 10)

/-- The first element of a list satisfying a test. -/
def firstWith {α : Type} (p : α → Bool) : List α → Option α
  | [] => none
  | a :: rest => if p a then some a else firstWith p rest

/-- The three demo mappings. -/
def demoEntries : List MapEntry :=
  [⟨0x400000, 0x452000, true, false, false, false, 0, 8, 2, 173521, bytes "/usr/bin/sleeper"⟩,
    ⟨0x452000, 0x4a0000, true, false, true, false, 0x52000, 8, 2, 173521,
      bytes "/usr/bin/sleeper"⟩,
    ⟨0x7f2c0a1f0000, 0x7f2c0a1f3000, true, false, true, false, 0, 8, 2, 1234,
      bytes "/usr/lib/libdl.so.2"⟩]

/-- A pathname of 781 bytes: three directories of 255 bytes each and a file
named `aaaaaaab-c x`. -/
def longPath : List Nat :=
  47 :: List.replicate 255 97 ++ 47 :: List.replicate 255 97 ++ 47 :: List.replicate 255 97 ++
    bytes "/aaaaaaab-c x"

/-- A read-only mapping of the file at `longPath`, then an executable mapping. -/
def longEntries : List MapEntry :=
  [⟨0x400000, 0x452000, true, false, false, false, 0, 8, 2, 173521, longPath⟩,
    ⟨0x452000, 0x4a0000, true, false, true, false, 0x52000, 8, 2, 173521,
      bytes "/usr/bin/sleeper"⟩]

/-- A mapping of libc at an address whose digits spell `cafe`, then a mapping of
`/opt/cafe/libcafe.so`. -/
def cafeEntries : List MapEntry :=
  [⟨0x7fcafe000000, 0x7fcafe021000, true, false, false, false, 0, 8, 2, 131,
      bytes "/usr/lib/libc.so.6"⟩,
    ⟨0x7fd000000000, 0x7fd000003000, true, false, true, false, 0, 8, 2, 977,
      bytes "/opt/cafe/libcafe.so"⟩]

/-! ## A concrete target -/

/-- The maps file of the demo target: three mappings, the first executable one
at `0x452000`, libdl at `0x7f2c0a1f0000`. -/
def demoMaps : List Nat := renderMaps demoEntries

/-- The registers of the demo target when it is interrupted. -/
def demoRegs : Regs :=
  ⟨15, 14, 13, 12, 0x7ffc00001000, 11, 0x246, 10, 9, 8, 0xfffffffffffffdfe, 0x4523a1, 3, 2, 1,
    34, 0x4523a1, 0x33, 0x246, 0x7ffc00000f00, 0x2b, 0x7f2c0a400000, 0, 0, 0, 0, 0⟩

/-- A target whose memory holds `0x90` everywhere. -/
def demoTracee : Tracee := ⟨fun _ => 0x90, demoRegs⟩

/-- The demo target before the injector touches it. -/
def demoWorld : World := ⟨demoTracee, false, []⟩

/-- An environment in which the target, once continued, stops with wait status
`status` and `rax` in its `rax` register; fresh heap memory is zero. -/
def demoEnv (rax status : Nat) : InjectEnv where
  attachOk := true
  attachWait := 4242
  attachStatus := 0x137f
  maps := some demoMaps
  addr0 := 0
  perms0 := []
  oldregs0 := demoRegs
  status0 := 0
  heap := fun _ => 0
  pathTail := fun _ => 0
  thunk := fun k => [0x48, 0x83, 0xe4, 0xf0, 0x49, 0x89, 0xc1, 0x48, 0x31, 0xc0, 0x41, 0xff,
    0xd1, 0xcc].getD k 0
  resume := fun t => (⟨t.mem, { t.regs with rax := rax, rip := t.regs.rip + 14 }⟩, status)

/-- The injector's own view in the demo: libdl at `0x7f5500000000`, `dlopen` at
`0x7f5500001390`. -/
def demoScopeEnv (rax status : Nat) (libMaps : List Nat) : ScopeEnv where
  toInjectEnv := demoEnv rax status
  libdl := some (bytes "/usr/lib/libdl.so.2", 0x7f5500000000)
  dlopenLocal := 0x7f5500001390
  libMaps := some libMaps

/-- The demo maps file without the libdl mapping. -/
def demoMapsNoLibdl : List Nat := renderMaps (demoEntries.take 2)

/-- A run of `inject` on the demo target with the agent path `/tmp/libscope.so`. -/
def demoRun (rax status : Nat) : InjectResult :=
  inject (demoEnv rax status) demoWorld 4242 0x7f2c0a1f1390 (bytes "/tmp/libscope.so")

/-- A run of `injectScope` on the demo target with the agent path `/does/not/exist`. -/
def demoScopeRun (rax status : Nat) (libMaps : List Nat) : ScopeResult :=
  injectScope (demoScopeEnv rax status libMaps) demoWorld 4242 (bytes "/does/not/exist")

/-- The demo target with the injector already attached. -/
def demoAttached : World := ⟨demoTracee, true, []⟩

/-- An attached target whose memory holds `0x11, 0x22, ...` from `0x1000` on. -/
def countingWorld : World :=
  ⟨⟨memOfBytes 0x1000 [0x11, 0x22, 0x33, 0x44, 0x55, 0x66, 0x77, 0x88, 0x99, 0xaa, 0xbb, 0xcc,
    0xdd, 0xee, 0xff, 0x10], demoRegs⟩, true, []⟩

/-- The first half of `inject` on the demo target with the agent path
`/tmp/libscope.so`. -/
def demoStage (rax status : Nat) : InjectResult ⊕ Staged :=
  injectStage (demoEnv rax status) demoWorld 4242 0x7f2c0a1f1390 (bytes "/tmp/libscope.so")

/-- The locals of `inject` on the demo target when the staging is done. -/
def demoStaged (rax status : Nat) : Staged :=
  match demoStage rax status with
  | Sum.inr st => st
  | Sum.inl r => ⟨r.world, demoRegs, fun _ => 0, 0, demoRegs⟩

/-- The demo environment with the target killed by SIGKILL before it stops:
`waitpid` reports the target's pid with status 9. -/
def killedEnv : InjectEnv := { demoEnv 0 0 with attachStatus := 9 }

/-- A bash in which every allocator stub is at `0x400100` and decodes to the
given instructions, over the given memory. -/
def stubEnv (insts : List DecodedInst) (mem : Mem) : BashEnv :=
  ⟨1, fun _ => 0x400100, fun _ => (DecodeResult.DECRES_SUCCESS, insts), mem⟩

/-- The table `bash_mem_func` with the replacements at `0x7000`. -/
def demoTable : List PatchInfo := bash_mem_func (fun _ => 0x7000)

/-- A libc that has the four current allocator functions and no `cfree`. -/
def noCfree (name : String) : Nat := if name = "cfree" then 0 else 0x7f0000001000

/-- A run in which libc lacks `cfree`, every bash stub is `push; jmp rel32` and
every funchook call would succeed. -/
def noCfreeEnv : FixEnv :=
  ⟨noCfree,
    stubEnv [⟨"PUSH", 1, 0x400100⟩, ⟨"JMP", 5, 0x400101⟩]
      (memOfBytes 0x400100 [0x55, 0xE9, 0x27, 0xF4, 0xFF, 0xFF]),
    ⟨true, fun _ _ => 0, 0⟩⟩

/-- Funchook results in which preparing the hook at `bad` fails and everything
else succeeds. -/
def failingPrepare (bad : Nat) : HookEnv :=
  ⟨true, fun target _ => if target = bad then 1 else 0, 0⟩

/-- A resolved table: the five internal entries at `0x401000, 0x402000, ...`. -/
def resolvedTable : List PatchInfo :=
  [⟨"malloc", 0x7000, 0x400100, 0x401000⟩, ⟨"realloc", 0x7010, 0x400200, 0x402000⟩,
    ⟨"free", 0x7020, 0x400300, 0x403000⟩, ⟨"memalign", 0x7030, 0x400400, 0x404000⟩,
    ⟨"cfree", 0x7040, 0x400500, 0x405000⟩]

/-- A run in which libc has all five functions, every bash stub is
`push; jmp rel32` and every funchook call succeeds. -/
def goodFixEnv : FixEnv :=
  ⟨fun _ => 0x7f0000001000,
    stubEnv [⟨"PUSH", 1, 0x400100⟩, ⟨"JMP", 5, 0x400101⟩]
      (memOfBytes 0x400100 [0x55, 0xE9, 0x27, 0xF4, 0xFF, 0xFF]),
    ⟨true, fun _ _ => 0, 0⟩⟩

/-! ## dbg.c: the debug-line table -/

/-- The constant `MAX_INSTANCES_PER_LINE`. -/
def MAX_INSTANCES_PER_LINE : Nat := 2

/-- The constant `MAX_NUM_LINES`. -/
def MAX_NUM_LINES : Nat := 256

/-- The record `occurrence_t`; `str` is `none` for a null pointer, otherwise
the string it points to. -/
structure Occurrence where
  time : Int
  err : Int
  str : Option (List Nat)
deriving DecidableEq, Repr

/-- The record `line_t`; `key` is a pointer (`0` is `NULL`), `instances` the
array `instance` of `MAX_INSTANCES_PER_LINE` occurrences. -/
structure Line where
  key : Nat
  count : Nat
  instances : List Occurrence
deriving DecidableEq, Repr

/-- A zeroed occurrence. -/
def zeroOccurrence : Occurrence := ⟨0, 0, none⟩

/-- A zeroed line, as `calloc` and `resetLine` leave it. -/
def zeroLine : Line := ⟨0, 0, [zeroOccurrence, zeroOccurrence]⟩

/-- The function `dbgInit`: `g_dbg` afterwards; `callocOk` tells whether
`scope_calloc` returned memory. The table is the array `lines`. -/
def dbgInit (callocOk : Bool) (_g_dbg : Option (List Line)) : Option (List Line) :=
  if callocOk then some (List.replicate MAX_NUM_LINES zeroLine) else none

/-- The function `updateLine` on a non-null line; `now` is the second
`gettimeofday` reports and `errno` the value of `scope_errno`. -/
def updateLine (line : Line) (str : Option (List Nat)) (now errno : Int) : Line :=
  let orig_count := line.count
  let new_count := (orig_count + 1) % 2 ^ 64
  let i := if orig_count < MAX_INSTANCES_PER_LINE then orig_count else MAX_INSTANCES_PER_LINE - 1
  ⟨line.key, new_count, line.instances.set i ⟨now, errno, str⟩⟩

/-- The search loop of `dbgAddLineHelper` from index `i` on: the index of the
line found (`line`), if any, and the value of `i` when the loop ends. -/
def searchLoop (key : Nat) : List Line → Nat → Option Nat × Nat
  | [], i => (none, i)
  | l :: rest, i =>
    if l.key = 0 then (none, i)
    else if key = l.key then (some i, i)
    else searchLoop key rest (i + 1)

/-- The function `dbgAddLineHelper` run by a single thread. The first argument
bounds the number of times the search is started over; that happens only when
the compare-and-swap on the key finds the slot taken. -/
def dbgAddLineHelper : Nat → List Line → Nat → Option (List Nat) → Int → Int → List Line
  | 0, lines, _, _, _, _ => lines
  | fuel + 1, lines, key, str, now, errno =>
    match searchLoop key lines 0 with
    | (some idx, _) => lines.set idx (updateLine (lines.getD idx zeroLine) str now errno)
    | (none, i) =>
      if MAX_NUM_LINES ≤ i then lines
      else if (lines.getD i zeroLine).key = 0 then
        lines.set i (updateLine { lines.getD i zeroLine with key := key } str now errno)
      else dbgAddLineHelper fuel lines key str now errno

/-- The function `dbgAddLine`; `str` is the string `vasprintf` produced, `none`
when there is no format or it failed. -/
def dbgAddLine (g_dbg : Option (List Line)) (key : Nat) (str : Option (List Nat))
    (now errno : Int) : Option (List Line) :=
  match g_dbg with
  | none => none
  | some lines => some (dbgAddLineHelper 1 lines key str now errno)

/-- The loop of `dbgCountAllLines` from index `i` on. -/
def countLinesLoop : List Line → Nat → Nat
  | [], i => i
  | l :: rest, i =>
    if i < MAX_NUM_LINES then (if l.key = 0 then i else countLinesLoop rest (i + 1)) else i

/-- The function `dbgCountAllLines`. -/
def dbgCountAllLines (g_dbg : Option (List Line)) : Nat :=
  match g_dbg with
  | none => 0
  | some lines => countLinesLoop lines 0

/-- A call of `dbgInit` or `dbgAddLine`, with what the environment supplies to it. -/
inductive DbgOp where
  | init (callocOk : Bool)
  | add (key : Nat) (str : Option (List Nat)) (now errno : Int)
deriving DecidableEq, Repr

/-- The effect of one call on `g_dbg`. -/
def dbgStep (g_dbg : Option (List Line)) : DbgOp → Option (List Line)
  | DbgOp.init ok => dbgInit ok g_dbg
  | DbgOp.add key str now errno => dbgAddLine g_dbg key str now errno

/-- The effect of a series of calls, made one after the other, on `g_dbg`. -/
def dbgRun (g_dbg : Option (List Line)) (ops : List DbgOp) : Option (List Line) :=
  ops.foldl dbgStep g_dbg

/-- The keys handed to `dbgAddLine` since the last `dbgInit`, in order; `none`
while there is no table. -/
def keysStep (ks : Option (List Nat)) : DbgOp → Option (List Nat)
  | DbgOp.init ok => if ok then some [] else none
  | DbgOp.add key _ _ _ => ks.map (fun l => l ++ [key])

/-- The keys handed to `dbgAddLine` since the last `dbgInit` in a series of
calls that starts without a table. -/
def keysSinceInit (ops : List DbgOp) : Option (List Nat) := ops.foldl keysStep none

/-- The distinct elements of a list in order of first appearance. -/
def firstKeys (ks : List Nat) : List Nat :=
  ks.foldl (fun acc k => if k ∈ acc then acc else acc ++ [k]) []

/-- A table whose 256 lines hold the keys `0x1000, 0x1001, ...`, each added once. -/
def fullTable : List Line :=
  (List.range 256).map (fun i => ⟨0x1000 + i, 1, [⟨1700000000, 0, none⟩, zeroOccurrence]⟩)

/-- A line as `updateLine` leaves it after the given occurrences, in order. -/
def updateAll (line : Line) (occs : List Occurrence) : Line :=
  occs.foldl (fun l o => updateLine l o.str o.time o.err) line

/-- The calls `dbgAddLine(key, ...)`, one for each of the given occurrences. -/
def addsOf (key : Nat) (occs : List Occurrence) : List DbgOp :=
  occs.map (fun o => DbgOp.add key o.str o.time o.err)

/-- The counts of the lines of a table whose key is `key`. -/
def countsOf (key : Nat) (lines : List Line) : List Nat :=
  (lines.filter (fun l => l.key == key)).map (fun l => l.count)

/-- A series of calls: `dbgInit`, then three `dbgAddLine` with two keys. -/
def demoOps : List DbgOp :=
  [DbgOp.init true, DbgOp.add 0x1000 none 5 0, DbgOp.add 0x2000 (some (bytes "x")) 6 2,
    DbgOp.add 0x1000 none 7 0]

/-! ## ns.c: the pid namespaces of a process -/

/-- The value of a 32-bit pattern read as `int`. -/
def toInt32 (z : Int) : Int := (z + 2 ^ 31) % 2 ^ 32 - 2 ^ 31

/-- The C library function `strtok_r` (ns.c calls it as `scope_strtok_r`) run
on the string `s`, which is the first argument or, when that is NULL, the
position the previous call saved: the token returned (`none` for NULL) and the
position saved for the next call. -/
def strtok_r (delim s : List Nat) : Option (List Nat) × List Nat :=
  match s.dropWhile (fun c => delim.contains c) with
  | [] => (none, [])
  | c :: t =>
    (some ((c :: t).takeWhile (fun c => !delim.contains c)),
      ((c :: t).dropWhile (fun c => !delim.contains c)).drop 1)

/-- The C library function `atoi` (ns.c calls it as `scope_atoi`): white space,
an optional sign and a run of decimal digits. C defines the result only when it
fits an `int`; here it is reduced to 32 bits. -/
def atoi (s : List Nat) : Int :=
  let signed := takeSign (s.dropWhile isspace)
  let v : Nat := (signed.2.takeWhile (fun c => 48 ≤ c && c ≤ 57)).foldl
    (fun acc c => acc * 10 + (c - 48)) 0
  toInt32 (if signed.1 then -(v : Int) else (v : Int))

/-- The delimiters `": \t"` of `nsIsPidInChildNs`. -/
def nsDelimiters : List Nat := [58, 32, 9]

/-- The loop `while (entry != NULL)` of `nsIsPidInChildNs`: `entry` and `last`
are the result of the previous `strtok_r`; the values of `lastNsPid` and
`nsDepth` when the loop ends. The first argument bounds the iterations; `none`
when the bound is reached. -/
def nsPidLoop : Nat → Option (List Nat) → List Nat → Int → Nat → Option (Int × Nat)
  | 0, _, _, _, _ => none
  | _ + 1, none, _, lastNsPid, nsDepth => some (lastNsPid, nsDepth)
  | fuel + 1, some entry, last, _, nsDepth =>
    nsPidLoop fuel (strtok_r nsDelimiters last).1 (strtok_r nsDelimiters last).2
      (atoi entry) (nsDepth + 1)

/-- The loop of `nsIsPidInChildNs` over the buffers `fgets` fills: the values of
`lastNsPid` and `nsDepth` after it. Each token takes at least one byte of the
buffer, so its length bounds the inner loop. -/
def nsStatusLoop : List (List Nat) → Option (Int × Nat)
  | [] => some (0, 0)
  | buffer :: rest =>
    if strstr (cstr buffer) (bytes "NSpid:") then
      let first := strtok_r nsDelimiters (cstr buffer)
      let second := strtok_r nsDelimiters first.2
      nsPidLoop ((cstr buffer).length + 1) second.1 second.2 0 0
    else nsStatusLoop rest

/-- The function `nsIsPidInChildNs`; `status` is the content of
`/proc/<pid>/status`, or `none` when it cannot be opened, and `nsPid` the value
of `*nsPid` before the call. The result and `*nsPid` after the call. -/
def nsIsPidInChildNs (status : Option (List Nat)) (nsPid : Int) : Option (Bool × Int) :=
  match status with
  | none => some (false, nsPid)
  | some s =>
    match nsStatusLoop (fgetsLines 4096 s) with
    | none => none
    | some (lastNsPid, nsDepth) =>
      if nsDepth = 2 then some (true, lastNsPid) else some (false, nsPid)

/-- The start of the `/proc/<pid>/status` file of a process whose command name
is `comm`, with the given values on its `NSpid:` line. -/
def statusText (comm : String) (nspid : String) : List Nat :=
  bytes ("Name:\t" ++ comm ++ "\nUmask:\t0022\nState:\tS (sleeping)\nTgid:\t4242\nNgid:\t0\n"
    ++ "Pid:\t4242\nPPid:\t1\nTracerPid:\t0\nNStgid:" ++ nspid ++ "\nNSpid:" ++ nspid
    ++ "\nNSpgid:" ++ nspid ++ "\nNSsid:" ++ nspid ++ "\nThreads:\t1\n")

/-! ## ns.c: starting from a container on the host -/

/-- The size `PATH_MAX` of the path buffers. -/
def PATH_MAX : Nat := 4096

/-- The text of `SCOPE_CRONTAB`. -/
def SCOPE_CRONTAB : List Nat := bytes "* * * * * root /tmp/scope_att.sh\n"

/-- The text of `SCOPE_CRON_PATH`. -/
def SCOPE_CRON_PATH : List Nat := bytes "/etc/cron.d/scope_cron"

/-- The text of `SCOPE_SCRIPT_PATH`. -/
def SCOPE_SCRIPT_PATH : List Nat := bytes "/tmp/scope_att.sh"

/-- The string `snprintf` leaves in a buffer of `size` bytes when the formatted
text is `s`. -/
def snprintf (size : Nat) (s : List Nat) : List Nat := s.take (size - 1)

/-- What the system and the other modules answer to the calls of ns.c. Paths
are strings without the terminator; `access`, `hostAccess` tell whether
`access(path, R_OK)` returns 0 before and after the mount namespace is
switched, `load` is `setupLoadFileIntoMem` (with `none` for a NULL path or
result), `mkdirOk` tells whether `libdirCreateDirIfMissing` returns at most
`MKDIR_STATUS_EXISTS`, and the other fields whether the call of that name on
the path succeeds. -/
structure NsEnv where
  statProc2 : Bool
  exePath : Option (List Nat)
  load : Option (List Nat) → Option (List Nat)
  envFilter : Option (List Nat)
  access : List Nat → Bool
  loaderVersion : List Nat
  isDevVersion : Bool
  edgeFsRoot : Option (List Nat)
  setnsOk : List Nat → Bool
  mkdirOk : List Nat → Bool
  hostAccess : List Nat → Bool
  openOk : List Nat → Bool
  ftruncateOk : List Nat → Bool
  mmapOk : List Nat → Bool
  writeOk : List Nat → Bool
  closeOk : List Nat → Bool

/-- The files written so far, oldest first: path and bytes stored from offset 0. -/
abbrev Writes := List (List Nat × List Nat)

/-- The function `extractMemToFile`: its result and the files written. -/
def extractMemToFile (env : NsEnv) (writes : Writes) (inputMem outFile : List Nat)
    (overwrite : Bool) : Bool × Writes :=
  if env.hostAccess outFile && !overwrite then (true, writes)
  else if !env.openOk outFile then (false, writes)
  else if !env.ftruncateOk outFile then (false, writes)
  else if !env.mmapOk outFile then (false, writes)
  else (true, writes ++ [(outFile, inputMem)])

/-- The function `setHostNamespace`. -/
def setHostNamespace (env : NsEnv) (ns : List Nat) : Bool :=
  let nsPath := (env.edgeFsRoot.getD (bytes "/hostfs")) ++ snprintf 64 (bytes "/proc/1/ns/" ++ ns)
  if !env.openOk nsPath then false else env.setnsOk nsPath

/-- What `joinHostNamespace` returns and leaves in its two output buffers. -/
structure JoinResult where
  status : Bool
  hostScopePath : List Nat
  hostFilterPath : List Nat
  writes : Writes
deriving DecidableEq, Repr

/-- The choice of `filterPath` in `joinHostNamespace`. -/
def joinFilterPath (env : NsEnv) : Option (List Nat) :=
  match env.envFilter with
  | some envFilterVal =>
    if !envFilterVal.isPrefixOf (bytes "false") && env.access envFilterVal then some envFilterVal
    else none
  | none =>
    if env.access (bytes "/usr/lib/appscope/scope_filter") then
      some (bytes "/usr/lib/appscope/scope_filter")
    else if env.access (bytes "/tmp/appscope/scope_filter") then
      some (bytes "/tmp/appscope/scope_filter")
    else none

/-- The last step of `joinHostNamespace`, under the comment `create a "scope"
on host`. -/
def joinCreateScope (env : NsEnv) (writes : Writes) (hostScopePath hostBasePath scopeMem : List Nat) :
    JoinResult :=
  let hostFilterPath := snprintf PATH_MAX (hostBasePath ++ bytes "/scope")
  let r := extractMemToFile env writes scopeMem hostFilterPath env.isDevVersion
  ⟨r.1, hostScopePath, hostFilterPath, r.2⟩

/-- The function `joinHostNamespace`; the two arguments are the contents of the
output buffers before the call. The paths are taken to fit `PATH_MAX`. -/
def joinHostNamespace (env : NsEnv) (hostScopePath hostFilterPath : List Nat) : JoinResult :=
  let ver := env.loaderVersion
  match env.exePath with
  | none => ⟨false, hostScopePath, hostFilterPath, []⟩
  | some exe =>
  match env.load (some exe) with
  | none => ⟨false, hostScopePath, hostFilterPath, []⟩
  | some ldscopeMem =>
  match env.load (joinFilterPath env) with
  | none => ⟨false, hostScopePath, hostFilterPath, []⟩
  | some scopeFilterCfgMem =>
  let usrScope := snprintf PATH_MAX (bytes "/usr/lib/appscope/" ++ ver ++ bytes "/scope")
  let tmpScope := snprintf PATH_MAX (bytes "/tmp/appscope/" ++ ver ++ bytes "/scope")
  let useTmp := !env.access usrScope || env.isDevVersion
  if useTmp && !env.access tmpScope then ⟨false, hostScopePath, hostFilterPath, []⟩
  else
  match env.load (some (if useTmp then tmpScope else usrScope)) with
  | none => ⟨false, hostScopePath, hostFilterPath, []⟩
  | some scopeMem =>
  if !setHostNamespace env (bytes "mnt") then ⟨false, hostScopePath, hostFilterPath, []⟩
  else
  let usrDir := snprintf PATH_MAX (bytes "/usr/lib/appscope/" ++ ver ++ bytes "/")
  let tmpDir := snprintf PATH_MAX (bytes "/tmp/appscope/" ++ ver ++ bytes "/")
  let dirTmp := !env.mkdirOk usrDir || env.isDevVersion
  if dirTmp && !env.mkdirOk tmpDir then ⟨false, hostScopePath, hostFilterPath, []⟩
  else
  let hostBasePath := if dirTmp then tmpDir else usrDir
  let r1 := extractMemToFile env [] ldscopeMem (hostBasePath ++ bytes "ldscope") env.isDevVersion
  if !r1.1 then ⟨false, hostScopePath, hostFilterPath, r1.2⟩
  else
  let usrFilter := snprintf PATH_MAX (bytes "/usr/lib/appscope/scope_filter")
  let r2 := extractMemToFile env r1.2 scopeFilterCfgMem usrFilter true
  if r2.1 then joinCreateScope env r2.2 hostScopePath hostBasePath scopeMem
  else
  let tmpFilter := snprintf PATH_MAX (bytes "/tmp/appscope/scope_filter")
  let r3 := extractMemToFile env r2.2 scopeFilterCfgMem tmpFilter true
  if r3.1 then joinCreateScope env r3.2 hostScopePath hostBasePath scopeMem
  else ⟨true, hostScopePath, tmpFilter, r3.2⟩

/-- The function `createCron`: its result and the files written. -/
def createCron (env : NsEnv) (writes : Writes) (scopePath filterPath : List Nat) : Bool × Writes :=
  let buf := snprintf 1024
    (bytes "#! /bin/bash\ntouch /tmp/scope_test\nrm /etc/cron.d/scope_cron\n" ++ scopePath
      ++ bytes " start -f < " ++ filterPath ++ bytes "\n")
  if !env.openOk SCOPE_SCRIPT_PATH then (false, writes)
  else if !env.writeOk SCOPE_SCRIPT_PATH then (false, writes)
  else if !env.closeOk SCOPE_SCRIPT_PATH then (false, writes ++ [(SCOPE_SCRIPT_PATH, buf)])
  else if !env.openOk SCOPE_CRON_PATH then (false, writes ++ [(SCOPE_SCRIPT_PATH, buf)])
  else if !env.writeOk SCOPE_CRON_PATH then (false, writes ++ [(SCOPE_SCRIPT_PATH, buf)])
  else (env.closeOk SCOPE_CRON_PATH,
    writes ++ [(SCOPE_SCRIPT_PATH, buf), (SCOPE_CRON_PATH, snprintf 1024 SCOPE_CRONTAB)])

/-- The function `isRunningInContainer`: `stat("/proc/2/comm")` fails. -/
def isRunningInContainer (env : NsEnv) : Bool := !env.statProc2

/-- The function `nsHostStart`: its exit code and the files written. -/
def nsHostStart (env : NsEnv) : Nat × Writes :=
  if !isRunningInContainer env then (1, [])
  else
    let j := joinHostNamespace env [] []
    if !j.status then (1, j.writes)
    else (0, (createCron env j.writes j.hostScopePath j.hostFilterPath).2)

/-- A container of release 1.2.0 in which every call succeeds: the loader is
`/usr/local/bin/ldscope`, the filter file and `scope` are at their default
places, and the host has none of the files yet. -/
def demoNsEnv : NsEnv where
  statProc2 := false
  exePath := some (bytes "/usr/local/bin/ldscope")
  load := fun p =>
    if p = some (bytes "/usr/local/bin/ldscope") then some (bytes "ldscope image")
    else if p = some (bytes "/usr/lib/appscope/scope_filter") then some (bytes "allow:\n")
    else if p = some (bytes "/usr/lib/appscope/1.2.0/scope") then some (bytes "scope image")
    else none
  envFilter := none
  access := fun _ => true
  loaderVersion := bytes "1.2.0"
  isDevVersion := false
  edgeFsRoot := none
  setnsOk := fun _ => true
  mkdirOk := fun _ => true
  hostAccess := fun _ => false
  openOk := fun _ => true
  ftruncateOk := fun _ => true
  mmapOk := fun _ => true
  writeOk := fun _ => true
  closeOk := fun _ => true

/-! ## Theorems -/

theorem wrap64_toInt64 (n : Nat) : wrap64 (toInt64 n) = n % 2 ^ 64 := by
  unfold wrap64 toInt64
  split <;> omega

theorem dispAddr_eq (a : Nat) : wrap64 (toInt64 a + 1) = (a + 1) % 2 ^ 64 := by
  unfold wrap64 toInt64
  split <;> omega

theorem wrap64_two_adds (a : Nat) (off sz : Int) :
    wrap64 (addInt64 (addInt64 (toInt64 a) off) sz) = wrap64 ((a : Int) + sz + off) := by
  unfold addInt64
  rw [wrap64_toInt64]
  unfold wrap64 toInt64
  split <;> split <;> omega

theorem jmpTarget_short (m : Mem) (a : Nat) (rel : Int) (hlo : -128 ≤ rel) (hhi : rel ≤ 127)
    (hb : readByte m ((a + 1) % 2 ^ 64) = (rel % 256).toNat) :
    jmpTarget m ⟨"JMP", 2, a⟩ = some (wrap64 ((a : Int) + 2 + rel)) := by
  have hrel : readChar m ((a + 1) % 2 ^ 64) = rel := by
    unfold readChar
    rw [hb]
    split <;> omega
  simp only [jmpTarget, dispAddr_eq, hrel]
  simp [wrap64_two_adds]

theorem jmpTarget_near (m : Mem) (a : Nat) (rel : Int) (hlo : -2 ^ 31 ≤ rel) (hhi : rel < 2 ^ 31)
    (h0 : readByte m ((a + 1) % 2 ^ 64) = (rel % 256).toNat)
    (h1 : readByte m ((a + 1) % 2 ^ 64 + 1) = (rel / 256 % 256).toNat)
    (h2 : readByte m ((a + 1) % 2 ^ 64 + 2) = (rel / 65536 % 256).toNat)
    (h3 : readByte m ((a + 1) % 2 ^ 64 + 3) = (rel / 16777216 % 256).toNat) :
    jmpTarget m ⟨"JMP", 5, a⟩ = some (wrap64 ((a : Int) + 5 + rel)) := by
  have hrel : readInt32 m ((a + 1) % 2 ^ 64) = rel := by
    unfold readInt32
    rw [h0, h1, h2, h3]
    simp only []
    split <;> omega
  simp only [jmpTarget, dispAddr_eq, hrel]
  simp [wrap64_two_adds]

/-- C1: the internal entry `bashMemFuncsFound` computes from a recognised JMP at
address `a` is `a + length + sign_extend(rel)` modulo `2 ^ 64`: `a + 2 + rel8`
when the byte after a 2-byte JMP encodes `rel8 ∈ [-128, 127]`, `a + 5 + rel32`
when the four bytes after a 5-byte JMP encode `rel32 ∈ [-2^31, 2^31)`; the stub
`E9 27 F4 FF FF` at `0x400100` resolves to `0x3ff52c` and `EB EC` at `0x400100`
to `0x4000EE`. -/
theorem jmp_target_is_addr_plus_length_plus_rel :
    (∀ (m : Mem) (a : Nat) (rel : Int), -128 ≤ rel → rel ≤ 127 →
      readByte m ((a + 1) % 2 ^ 64) = (rel % 256).toNat →
      jmpTarget m ⟨"JMP", 2, a⟩ = some (wrap64 ((a : Int) + 2 + rel))) ∧
    (∀ (m : Mem) (a : Nat) (rel : Int), -2 ^ 31 ≤ rel → rel < 2 ^ 31 →
      readByte m ((a + 1) % 2 ^ 64) = (rel % 256).toNat →
      readByte m ((a + 1) % 2 ^ 64 + 1) = (rel / 256 % 256).toNat →
      readByte m ((a + 1) % 2 ^ 64 + 2) = (rel / 65536 % 256).toNat →
      readByte m ((a + 1) % 2 ^ 64 + 3) = (rel / 16777216 % 256).toNat →
      jmpTarget m ⟨"JMP", 5, a⟩ = some (wrap64 ((a : Int) + 5 + rel))) ∧
    (bashMemFuncStep
        ⟨1, fun _ => 0x400100, fun a => (DecodeResult.DECRES_SUCCESS, [⟨"JMP", 5, a⟩]),
          memOfBytes 0x400100 [0xE9, 0x27, 0xF4, 0xFF, 0xFF]⟩
        ⟨"malloc", 0x7000, 0, 0⟩ = (⟨"malloc", 0x7000, 0x400100, 0x3ff52c⟩, true)) ∧
    (bashMemFuncStep
        ⟨1, fun _ => 0x400100, fun a => (DecodeResult.DECRES_SUCCESS, [⟨"JMP", 2, a⟩]),
          memOfBytes 0x400100 [0xEB, 0xEC]⟩
        ⟨"malloc", 0x7000, 0, 0⟩ = (⟨"malloc", 0x7000, 0x400100, 0x4000EE⟩, true)) :=
  ⟨jmpTarget_short, jmpTarget_near, by decide, by decide⟩

/-- Witness for C1: the short form at `0x400100` with displacement `-20` (byte
`0xEC`) and the near form with displacement `-3033` (bytes `27 F4 FF FF`). -/
theorem jmp_target_is_addr_plus_length_plus_rel_witness :
    jmpTarget (memOfBytes 0x400100 [0xEB, 0xEC]) ⟨"JMP", 2, 0x400100⟩
        = some (wrap64 ((0x400100 : Nat) + 2 + (-20))) ∧
      jmpTarget (memOfBytes 0x400100 [0xE9, 0x27, 0xF4, 0xFF, 0xFF]) ⟨"JMP", 5, 0x400100⟩
        = some (wrap64 ((0x400100 : Nat) + 5 + (-3033))) :=
  ⟨jmp_target_is_addr_plus_length_plus_rel.1 _ 0x400100 (-20) (by decide) (by decide) (by decide),
    jmp_target_is_addr_plus_length_plus_rel.2.1 _ 0x400100 (-3033) (by decide) (by decide)
      (by decide) (by decide) (by decide) (by decide)⟩

/-- C2: on the success path of `inject` (stop by SIGTRAP, `rax` nonzero,
memory written back, registers set, detached) the target's window at
`S = 0x452000` is not what it was before the attach: the byte at `S + 1` was
`0x90` and is `0` afterwards, because `ptraceRead` saved only every eighth byte. -/
theorem inject_success_window_differs :
    freeSpaceAddr (some demoMaps) 0 [] = Outcome.ok 0x452000 ∧
    (demoRun 0x7f2c0b000000 0x57f).outcome = Outcome.ok () ∧
    (demoRun 0x7f2c0b000000 0x57f).world.log.getLast? = some PtraceReq.DETACH ∧
    (demoRun 0x7f2c0b000000 0x57f).world.tracee.regs = demoRegs ∧
    demoWorld.tracee.mem 0x452001 = 0x90 ∧
    (demoRun 0x7f2c0b000000 0x57f).world.tracee.mem 0x452001 = 0 := by
  decide

/-- C3: when `dlopen` returns 0 in the target (SIGTRAP stop, `rax = 0`),
`inject` returns with the target still attached, no `PTRACE_DETACH` issued, the
path still at `S` and the staged registers still installed; when the target
stops with another signal (here SIGSEGV), `inject` exits with status 1, again
without write-back or `PTRACE_DETACH`. -/
theorem inject_failure_paths_skip_restore :
    ((demoRun 0 0x57f).outcome = Outcome.ok () ∧
      (demoRun 0 0x57f).world.attached = true ∧
      PtraceReq.DETACH ∉ (demoRun 0 0x57f).world.log ∧
      (demoRun 0 0x57f).world.log.getLast? = some PtraceReq.GETREGS ∧
      demoWorld.tracee.mem 0x452000 = 0x90 ∧
      (demoRun 0 0x57f).world.tracee.mem 0x452000 = 0x2f ∧
      (demoRun 0 0x57f).world.tracee.regs.rdi = 0x452000 ∧ demoRegs.rdi = 1) ∧
    ((demoRun 0 0xb7f).outcome = Outcome.exit 1 ∧
      PtraceReq.DETACH ∉ (demoRun 0 0xb7f).world.log ∧
      (demoRun 0 0xb7f).world.log.getLast? = some PtraceReq.CONT ∧
      (demoRun 0 0xb7f).world.tracee.mem 0x452000 = 0x2f) := by
  decide

/-- C4: when the target stops with SIGTRAP and `rax = 0` (`dlopen` of
`/does/not/exist` failed), `injectScope` returns 0, the same value as on success. -/
theorem injectScope_returns_zero_on_dlopen_failure :
    WIFSTOPPED 0x57f = true ∧ WSTOPSIG 0x57f = SIGTRAP ∧
    (demoScopeRun 0 0x57f demoMaps).world.tracee.regs.rax = 0 ∧
    (demoScopeRun 0 0x57f demoMaps).ret = Outcome.ok 0 ∧
    (demoScopeRun 0x7f2c0b000000 0x57f demoMaps).ret = Outcome.ok 0 := by
  decide

/-- C5: `ptraceRead` of 16 bytes from a target holding `0x11, 0x22, ...` into a
zeroed buffer stores only `data[0]` and `data[8]`; `data[1]` stays 0 although
the target byte is `0x22`. -/
theorem ptraceRead_keeps_one_byte_per_word :
    readByte countingWorld.tracee.mem 0x1001 = 0x22 ∧
    (ptraceRead countingWorld 0x1000 (fun _ => 0) 16).2.map (fun d => (List.range 16).map d)
      = some [0x11, 0, 0, 0, 0, 0, 0, 0, 0x99, 0, 0, 0, 0, 0, 0, 0] := by
  decide

/-- C6: `ptraceWrite` of the 5 bytes of `/a.so` at `0x452000` also replaces the
three target bytes at `0x452005 .. 0x452007`, which lie beyond `addr + len`,
by the bytes that follow the source in the injector's memory. -/
theorem ptraceWrite_writes_past_len :
    strlen (bytes "/a.so") = 5 ∧
    (ptraceWrite demoAttached 0x452000 (pathMem (bytes "/a.so") (fun _ => 0x41)) 5).2 = true ∧
    (List.range 4).map (fun k => demoAttached.tracee.mem (0x452004 + k))
      = [0x90, 0x90, 0x90, 0x90] ∧
    (List.range 4).map (fun k =>
      (ptraceWrite demoAttached 0x452000 (pathMem (bytes "/a.so") (fun _ => 0x41)) 5).1.tracee.mem
        (0x452004 + k)) = [0x6f, 0, 0x41, 0x41] := by
  decide

theorem remoteDlopen_eq (remoteLib dlopenAddr localLib : Nat) :
    remoteDlopen remoteLib dlopenAddr localLib
      = wrap64 ((dlopenAddr : Int) + ((remoteLib : Int) - (localLib : Int))) := by
  unfold remoteDlopen wrap64
  omega

/-- C7: whenever `injectScope` gets as far as calling `inject` (libdl found
locally at `local_base`, `dlopen` found at a non-null `dlopen_local`, the maps
file read giving `remote_base`), the address it passes is
`dlopen_local + (remote_base - local_base)` modulo `2 ^ 64`. -/
theorem injectScope_passes_slid_dlopen (env : ScopeEnv) (w : World) (pid : Int)
    (path libpath : List Nat) (dlopen_local local_base remote_base : Nat)
    (hlib : env.libdl = some (libpath, local_base))
    (hsym : env.dlopenLocal = dlopen_local) (hnz : dlopen_local ≠ 0)
    (hmap : findLibrary env.libMaps libpath = Outcome.ok remote_base) :
    (injectScope env w pid path).passed
      = some (wrap64 ((dlopen_local : Int) + ((remote_base : Int) - (local_base : Int)))) := by
  subst hsym
  simp only [injectScope, hlib, hmap, if_neg hnz, remoteDlopen_eq]
  split <;> rfl

/-- Witness for C7: the demo injector (libdl at `0x7f5500000000`, `dlopen` at
`0x7f5500001390`) against the demo target (libdl at `0x7f2c0a1f0000`). -/
theorem injectScope_passes_slid_dlopen_witness :
    (demoScopeRun 0x7f2c0b000000 0x57f demoMaps).passed
      = some (wrap64 (((0x7f5500001390 : Nat) : Int)
          + (((0x7f2c0a1f0000 : Nat) : Int) - ((0x7f5500000000 : Nat) : Int)))) :=
  injectScope_passes_slid_dlopen (demoScopeEnv 0x7f2c0b000000 0x57f demoMaps) demoWorld 4242
    (bytes "/does/not/exist") (bytes "/usr/lib/libdl.so.2") 0x7f5500001390 0x7f5500000000
    0x7f2c0a1f0000 rfl rfl (by decide) (by decide)

/-- C9: when no line of the target's maps file contains the libdl path,
`findLibrary` returns 0 and `injectScope` goes on: it passes
`dlopen_local - local_base` (`0x1390`) to `inject`, attaches to the target and
returns 0. -/
theorem injectScope_proceeds_without_mapping :
    findLibrary (some demoMapsNoLibdl) (bytes "/usr/lib/libdl.so.2") = Outcome.ok 0 ∧
    (demoScopeRun 0x7f2c0b000000 0x57f demoMapsNoLibdl).passed = some 0x1390 ∧
    PtraceReq.ATTACH ∈ (demoScopeRun 0x7f2c0b000000 0x57f demoMapsNoLibdl).world.log ∧
    (demoScopeRun 0x7f2c0b000000 0x57f demoMapsNoLibdl).ret = Outcome.ok 0 := by
  decide

/-! ### Characters and digit runs -/

theorem isxdigit_range {c : Nat} (h : isxdigit c = true) :
    (48 ≤ c ∧ c ≤ 57) ∨ (97 ≤ c ∧ c ≤ 102) ∨ (65 ≤ c ∧ c ≤ 70) := by
  unfold isxdigit hexDigitVal at h
  by_cases h1 : 48 ≤ c ∧ c ≤ 57
  · exact Or.inl h1
  · by_cases h2 : 97 ≤ c ∧ c ≤ 102
    · exact Or.inr (Or.inl h2)
    · by_cases h3 : 65 ≤ c ∧ c ≤ 70
      · exact Or.inr (Or.inr h3)
      · simp [h1, h2, h3] at h

theorem isspace_range {c : Nat} (h : isspace c = true) : c = 32 ∨ (9 ≤ c ∧ c ≤ 13) := by
  unfold isspace at h
  simp at h
  omega

theorem not_isspace_of_isxdigit {c : Nat} (h : isxdigit c = true) : isspace c = false := by
  have hr := isxdigit_range h
  cases hs : isspace c with
  | false => rfl
  | true => have := isspace_range hs; omega

theorem hexDigitVal_digitChar {d : Nat} (h : d < 16) : hexDigitVal (digitChar d) = some d := by
  unfold hexDigitVal digitChar
  by_cases h10 : d < 10
  · have h1 : 48 ≤ 48 + d ∧ 48 + d ≤ 57 := by omega
    simp [h10, h1]
  · have h1 : ¬ (48 ≤ 87 + d ∧ 87 + d ≤ 57) := by omega
    have h2 : 97 ≤ 87 + d ∧ 87 + d ≤ 102 := by omega
    simp only [h10, if_false]
    rw [if_neg h1, if_pos h2]
    congr 1
    omega

theorem isxdigit_digitChar {d : Nat} (h : d < 16) : isxdigit (digitChar d) = true := by
  simp [isxdigit, hexDigitVal_digitChar h]

theorem hexValue_append_single (l : List Nat) (c : Nat) :
    hexValue (l ++ [c]) = hexValue l * 16 + (hexDigitVal c).getD 0 := by
  simp [hexValue, List.foldl_append]

theorem digitsOf_isxdigit (b : Nat) (hb0 : 0 < b) (hb : b ≤ 16) (fuel n : Nat) :
    ∀ c ∈ digitsOf b fuel n, isxdigit c = true := by
  induction fuel generalizing n with
  | zero => intro c hc; simp [digitsOf] at hc
  | succ f ih =>
    intro c hc
    unfold digitsOf at hc
    by_cases hn : n < b
    · simp only [hn, if_true, List.mem_singleton] at hc
      subst hc
      exact @isxdigit_digitChar n (by omega)
    · simp only [hn, if_false, List.mem_append, List.mem_singleton] at hc
      rcases hc with hc | hc
      · exact ih _ c hc
      · subst hc
        have : n % b < b := Nat.mod_lt _ hb0
        exact @isxdigit_digitChar (n % b) (by omega)

theorem digitsOf_ne_nil (b fuel n : Nat) : digitsOf b (fuel + 1) n ≠ [] := by
  unfold digitsOf
  by_cases hn : n < b <;> simp [hn]

theorem hexValue_digitsOf (fuel n : Nat) (h : n < 16 ^ fuel) :
    hexValue (digitsOf 16 fuel n) = n := by
  induction fuel generalizing n with
  | zero => simp at h; subst h; rfl
  | succ f ih =>
    unfold digitsOf
    by_cases hn : n < 16
    · simp [hn, hexValue, hexDigitVal_digitChar hn]
    · have hq : n / 16 < 16 ^ f := by
        apply Nat.div_lt_of_lt_mul
        rw [pow_succ] at h
        omega
      have hm : n % 16 < 16 := Nat.mod_lt _ (by omega)
      simp only [hn, if_false, hexValue_append_single, ih _ hq, hexDigitVal_digitChar hm,
        Option.getD_some]
      omega

theorem digitsOf_length_le (b fuel n k : Nat) (hk : 1 ≤ k) (h : n < b ^ k) :
    (digitsOf b fuel n).length ≤ k := by
  induction fuel generalizing n k with
  | zero => simp [digitsOf]
  | succ f ih =>
    unfold digitsOf
    by_cases hn : n < b
    · simp [hn]; omega
    · simp only [hn, if_false, List.length_append, List.length_singleton]
      have hk2 : 2 ≤ k := by
        by_contra hlt
        have : k = 1 := by omega
        subst this
        simp at h
        omega
      have hq : n / b < b ^ (k - 1) := by
        apply Nat.div_lt_of_lt_mul
        have : b ^ k = b * b ^ (k - 1) := by
          rw [← pow_succ']
          congr 1
          omega
        omega
      have := ih (n / b) (k - 1) (by omega) hq
      omega

theorem hexValue_replicate_zero (k : Nat) (l : List Nat) :
    hexValue (List.replicate k 48 ++ l) = hexValue l := by
  induction k with
  | zero => simp
  | succ k ih =>
    have h48 : hexDigitVal 48 = some 0 := by decide
    simp only [hexValue, List.replicate_succ, List.cons_append, List.foldl_cons, h48] at ih ⊢
    simpa using ih

theorem fmtHex_isxdigit (w n : Nat) : ∀ c ∈ fmtHex w n, isxdigit c = true := by
  intro c hc
  unfold fmtHex at hc
  rw [List.mem_append] at hc
  rcases hc with hc | hc
  · have := List.eq_of_mem_replicate hc
    subst this
    decide
  · exact digitsOf_isxdigit 16 (by omega) (by omega) 16 n c hc

theorem fmtHex_ne_nil (w n : Nat) : fmtHex w n ≠ [] := by
  unfold fmtHex
  have := digitsOf_ne_nil 16 15 n
  simp [this]

theorem hexValue_fmtHex (w n : Nat) (h : n < 2 ^ 64) : hexValue (fmtHex w n) = n := by
  unfold fmtHex
  rw [hexValue_replicate_zero]
  exact hexValue_digitsOf 16 n (by norm_num; omega)

theorem fmtHex_length_le (w n k : Nat) (hk : 1 ≤ k) (h : n < 16 ^ k) :
    (fmtHex w n).length ≤ max w k := by
  unfold fmtHex
  have := digitsOf_length_le 16 16 n k hk h
  simp only [List.length_append, List.length_replicate]
  omega

/-! ### Scanning -/

theorem takeWhile_append_stop {p : Nat → Bool} (l : List Nat) (c : Nat) (rest : List Nat)
    (hl : ∀ x ∈ l, p x = true) (hc : p c = false) :
    (l ++ c :: rest).takeWhile p = l := by
  induction l with
  | nil => simp [List.takeWhile, hc]
  | cons a l ih =>
    have ha : p a = true := hl a (List.mem_cons_self _ _)
    rw [List.cons_append, List.takeWhile_cons, ha, if_pos rfl,
      ih (fun x hx => hl x (List.mem_cons_of_mem _ hx))]

theorem dropWhile_append_stop {p : Nat → Bool} (l : List Nat) (c : Nat) (rest : List Nat)
    (hl : ∀ x ∈ l, p x = true) (hc : p c = false) :
    (l ++ c :: rest).dropWhile p = c :: rest := by
  induction l with
  | nil => simp [List.dropWhile, hc]
  | cons a l ih =>
    have ha : p a = true := hl a (List.mem_cons_self _ _)
    rw [List.cons_append, List.dropWhile_cons, ha, if_pos rfl,
      ih (fun x hx => hl x (List.mem_cons_of_mem _ hx))]

theorem cstr_eq_self (l : List Nat) (h : ∀ c ∈ l, c ≠ 0) : cstr l = l := by
  unfold cstr
  induction l with
  | nil => rfl
  | cons a l ih =>
    have ha : (a != 0) = true := by simpa using h a (List.mem_cons_self _ _)
    simp only [List.takeWhile, ha]
    rw [ih (fun x hx => h x (List.mem_cons_of_mem _ hx))]

/-- A run of hexadecimal digits followed by a byte that is neither a digit nor
`x`/`X` scans as the number the run denotes. -/
theorem scanHex_digits (ds : List Nat) (c : Nat) (rest : List Nat) (hne : ds ≠ [])
    (hds : ∀ x ∈ ds, isxdigit x = true) (hc : isxdigit c = false) (hx : c ≠ 120 ∧ c ≠ 88) :
    scanHex (ds ++ c :: rest) = some (ulConv false (hexValue ds), c :: rest) := by
  cases ds with
  | nil => exact absurd rfl hne
  | cons d ds =>
    have hd : isxdigit d = true := hds d (List.mem_cons_self _ _)
    have hrest : ∀ x ∈ ds, isxdigit x = true := fun x hx => hds x (List.mem_cons_of_mem _ hx)
    have hdr := isxdigit_range hd
    have hsp : isspace d = false := not_isspace_of_isxdigit hd
    have h45 : d ≠ 45 := by omega
    have h43 : d ≠ 43 := by omega
    unfold scanHex
    simp only [List.cons_append, List.dropWhile, hsp, takeSign, if_neg h45, if_neg h43]
    by_cases h48 : d = 48
    · subst h48
      have hv : ∀ l, hexValue (48 :: l) = hexValue l := by
        intro l
        have := hexValue_replicate_zero 1 l
        simpa using this
      cases ds with
      | nil =>
        have hcx : ¬ (c = 120 ∨ c = 88) := by omega
        have h48v : hexDigitVal 48 = some 0 := by decide
        simp [hcx, List.takeWhile, List.dropWhile, hc, hexValue, h48v]
      | cons e ds =>
        have he : isxdigit e = true := hrest e (List.mem_cons_self _ _)
        have her := isxdigit_range he
        have hex : ¬ (e = 120 ∨ e = 88) := by omega
        have htw := takeWhile_append_stop (e :: ds) c rest hrest hc
        have hdw := dropWhile_append_stop (e :: ds) c rest hrest hc
        simp only [List.cons_append] at htw hdw
        simp [hex, htw, hdw, hv]
    · have htw := takeWhile_append_stop (d :: ds) c rest hds hc
      have hdw := dropWhile_append_stop (d :: ds) c rest hds hc
      simp only [List.cons_append] at htw hdw
      simp [h48, htw, hdw]

/-- A run of non-blank bytes between two blanks scans as a `%s` token. -/
theorem scanToken_word (tok : List Nat) (rest : List Nat) (hne : tok ≠ [])
    (htok : ∀ x ∈ tok, isspace x = false) :
    scanToken (32 :: (tok ++ (32 :: rest))) = some (tok, 32 :: rest) := by
  have h32 : isspace 32 = true := by decide
  have hdrop : (32 :: (tok ++ (32 :: rest))).dropWhile isspace = tok ++ (32 :: rest) := by
    cases tok with
    | nil => exact absurd rfl hne
    | cons a tok =>
      have ha : isspace a = false := htok a (List.mem_cons_self _ _)
      simp [List.dropWhile, h32, ha]
  have htw := takeWhile_append_stop (p := fun c => !isspace c) tok 32 rest
    (by intro x hx; simp [htok x hx]) (by simp [h32])
  have hdw := dropWhile_append_stop (p := fun c => !isspace c) tok 32 rest
    (by intro x hx; simp [htok x hx]) (by simp [h32])
  unfold scanToken
  simp only [hdrop, htw, hdw]
  simp [hne]

/-- What `sscanf` stores for a line `H-E P O D ...` made of two runs of
hexadecimal digits and three blank-separated words. -/
theorem sscanfMaps_fields (H E P O D rest : List Nat)
    (hz : ∀ c ∈ H ++ (45 :: (E ++ (32 :: (P ++ (32 :: (O ++ (32 :: (D ++ (32 :: rest))))))))),
      c ≠ 0)
    (hH : H ≠ []) (hHd : ∀ x ∈ H, isxdigit x = true)
    (hE : E ≠ []) (hEd : ∀ x ∈ E, isxdigit x = true)
    (hP : P ≠ []) (hPs : ∀ x ∈ P, isspace x = false)
    (hO : O ≠ []) (hOs : ∀ x ∈ O, isspace x = false)
    (hD : D ≠ []) (hDs : ∀ x ∈ D, isspace x = false) :
    sscanfMaps (H ++ (45 :: (E ++ (32 :: (P ++ (32 :: (O ++ (32 :: (D ++ (32 :: rest)))))))))) =
      ⟨some (ulConv false (hexValue H)), some P, some D⟩ := by
  unfold sscanfMaps
  rw [cstr_eq_self _ hz, scanHex_digits H 45 _ hH hHd (by decide) (by decide)]
  simp only []
  rw [scanHex_digits E 32 _ hE hEd (by decide) (by decide)]
  simp only []
  rw [scanToken_word P _ hP hPs]
  simp only []
  rw [scanToken_word O _ hO hOs]
  simp only []
  rw [scanToken_word D _ hD hDs]

theorem ulConv_pos_lt (v : Nat) (h : v < 2 ^ 64) : ulConv false v = v := by
  unfold ulConv
  have : ¬ (2 ^ 64 ≤ v) := by omega
  rw [if_neg this]
  simp

theorem permString_length (e : MapEntry) : e.permString.length = 4 := rfl

theorem permString_ne_nil (e : MapEntry) : e.permString ≠ [] := by
  simp [MapEntry.permString]

theorem permString_chars (e : MapEntry) :
    ∀ c ∈ e.permString, isspace c = false ∧ c ≠ 0 ∧ c ≠ 10 := by
  intro c hc
  simp only [MapEntry.permString, List.mem_cons, List.mem_singleton, List.not_mem_nil,
    or_false] at hc
  rcases hc with h | h | h | h <;> subst h <;> split <;> decide

theorem isxdigit_chars {c : Nat} (h : isxdigit c = true) :
    isspace c = false ∧ c ≠ 0 ∧ c ≠ 10 := by
  have hr := isxdigit_range h
  refine ⟨not_isspace_of_isxdigit h, ?_, ?_⟩ <;> omega

theorem devString_chars (e : MapEntry) :
    ∀ c ∈ e.devString, isspace c = false ∧ c ≠ 0 ∧ c ≠ 10 := by
  intro c hc
  simp only [MapEntry.devString, List.mem_append, List.mem_cons] at hc
  rcases hc with h | h | h
  · exact isxdigit_chars (fmtHex_isxdigit _ _ c h)
  · subst h; decide
  · exact isxdigit_chars (fmtHex_isxdigit _ _ c h)

theorem devString_ne_nil (e : MapEntry) : e.devString ≠ [] := by
  simp [MapEntry.devString]

theorem devString_length (e : MapEntry) (h : e.wellFormed = true) : e.devString.length ≤ 19 := by
  simp only [MapEntry.wellFormed, Bool.and_eq_true, decide_eq_true_eq] at h
  have h1 := fmtHex_length_le 2 e.major 3 (by omega) (by omega)
  have h2 := fmtHex_length_le 2 e.minor 5 (by omega) (by omega)
  simp only [MapEntry.devString, List.length_append, List.length_cons]
  omega

theorem fmtDec_chars (n : Nat) : ∀ c ∈ fmtDec n, c ≠ 0 ∧ c ≠ 10 := by
  intro c hc
  have := isxdigit_chars (digitsOf_isxdigit 10 (by omega) (by omega) 20 n c hc)
  exact this.2

theorem tailString_chars (e : MapEntry) (h : e.wellFormed = true) :
    ∀ c ∈ e.tailString, c ≠ 0 ∧ c ≠ 10 := by
  simp only [MapEntry.wellFormed, Bool.and_eq_true, List.all_eq_true, bne_iff_ne] at h
  intro c hc
  simp only [MapEntry.tailString, List.mem_append, List.mem_cons] at hc
  rcases hc with hc | hc | hc
  · exact fmtDec_chars _ c hc
  · subst hc; decide
  · split at hc
    · simp at hc
    · rw [List.mem_append] at hc
      rcases hc with hc | hc
      · have := List.eq_of_mem_replicate hc
        subst this; decide
      · exact h.2 c hc

/-- The line of a well-formed mapping, cut as `sscanf` will read it. -/
theorem lineBody_eq (e : MapEntry) :
    e.lineBody = fmtHex 8 e.start ++ (45 :: (fmtHex 8 e.stop ++ (32 :: (e.permString ++
      (32 :: (fmtHex 8 e.offset ++ (32 :: (e.devString ++ (32 :: e.tailString))))))))) := by
  simp [MapEntry.lineBody, List.append_assoc]

theorem lineBody_chars (e : MapEntry) (h : e.wellFormed = true) :
    ∀ c ∈ e.lineBody, c ≠ 0 ∧ c ≠ 10 := by
  intro c hc
  rw [lineBody_eq] at hc
  simp only [List.mem_append, List.mem_cons] at hc
  rcases hc with hc | hc | hc | hc | hc | hc | hc | hc | hc | hc | hc
  · exact (isxdigit_chars (fmtHex_isxdigit _ _ c hc)).2
  · subst hc; decide
  · exact (isxdigit_chars (fmtHex_isxdigit _ _ c hc)).2
  · subst hc; decide
  · exact (permString_chars e c hc).2
  · subst hc; decide
  · exact (isxdigit_chars (fmtHex_isxdigit _ _ c hc)).2
  · subst hc; decide
  · exact (devString_chars e c hc).2
  · subst hc; decide
  · exact tailString_chars e h c hc

/-- What `sscanf` stores for the line of a well-formed mapping (with or without
its newline): the start address, the permission string and the device. -/
theorem sscanfMaps_lineBody (e : MapEntry) (h : e.wellFormed = true) (nl : List Nat)
    (hnl : ∀ c ∈ nl, c ≠ 0) :
    sscanfMaps (e.lineBody ++ nl) = ⟨some e.start, some e.permString, some e.devString⟩ := by
  have hs : e.start < 2 ^ 64 := by
    simp only [MapEntry.wellFormed, Bool.and_eq_true, decide_eq_true_eq] at h
    exact h.1.1.1.1.1.1
  have hz : ∀ c ∈ e.lineBody ++ nl, c ≠ 0 := by
    intro c hc
    rw [List.mem_append] at hc
    rcases hc with hc | hc
    · exact (lineBody_chars e h c hc).1
    · exact hnl c hc
  have key := sscanfMaps_fields (fmtHex 8 e.start) (fmtHex 8 e.stop) e.permString
    (fmtHex 8 e.offset) e.devString (e.tailString ++ nl)
    (by
      have : fmtHex 8 e.start ++ (45 :: (fmtHex 8 e.stop ++ (32 :: (e.permString ++
          (32 :: (fmtHex 8 e.offset ++ (32 :: (e.devString ++ (32 :: (e.tailString ++ nl)))))))))) =
          e.lineBody ++ nl := by
        rw [lineBody_eq]; simp [List.append_assoc]
      rw [this]; exact hz)
    (fmtHex_ne_nil _ _) (fmtHex_isxdigit _ _) (fmtHex_ne_nil _ _) (fmtHex_isxdigit _ _)
    (permString_ne_nil e) (fun c hc => (permString_chars e c hc).1)
    (fmtHex_ne_nil _ _) (fun c hc => not_isspace_of_isxdigit (fmtHex_isxdigit _ _ c hc))
    (devString_ne_nil e) (fun c hc => (devString_chars e c hc).1)
  have hline : e.lineBody ++ nl = fmtHex 8 e.start ++ (45 :: (fmtHex 8 e.stop ++ (32 ::
      (e.permString ++ (32 :: (fmtHex 8 e.offset ++ (32 :: (e.devString ++
      (32 :: (e.tailString ++ nl)))))))))) := by
    rw [lineBody_eq]; simp [List.append_assoc]
  rw [hline, key, hexValue_fmtHex _ _ hs, ulConv_pos_lt _ hs]

/-! ### Reading the maps file line by line -/

theorem fgetsAux_line (room : Nat) (l rest : List Nat) (hl : ∀ c ∈ l, c ≠ 10)
    (hroom : l.length < room) :
    fgetsAux room (l ++ 10 :: rest) = (l ++ [10], rest) := by
  induction l generalizing room with
  | nil =>
    cases room with
    | zero => omega
    | succ r => simp [fgetsAux]
  | cons a l ih =>
    cases room with
    | zero => omega
    | succ r =>
      have ha : a ≠ 10 := hl a (List.mem_cons_self _ _)
      have := ih r (fun c hc => hl c (List.mem_cons_of_mem _ hc))
        (by simp only [List.length_cons] at hroom; omega)
      simp [fgetsAux, ha, this]

theorem fgets_line (n : Nat) (l rest : List Nat) (hl : ∀ c ∈ l, c ≠ 10)
    (hn : l.length + 2 ≤ n) :
    fgets n (l ++ 10 :: rest) = some (l ++ [10], rest) := by
  have h := fgetsAux_line (n - 1) l rest hl (by omega)
  cases l with
  | nil => simpa [fgets] using h
  | cons a l => simpa [fgets] using h

theorem render_length (e : MapEntry) : e.render.length = e.lineBody.length + 1 := by
  simp [MapEntry.render]

theorem fgetsLinesAux_renderMaps (n : Nat) (es : List MapEntry) (fuel : Nat)
    (hwf : ∀ e ∈ es, e.wellFormed = true) (hlen : ∀ e ∈ es, e.render.length + 1 ≤ n)
    (hfuel : (renderMaps es).length ≤ fuel) :
    fgetsLinesAux n fuel (renderMaps es) = es.map MapEntry.render := by
  induction es generalizing fuel with
  | nil =>
    cases fuel with
    | zero => rfl
    | succ f => simp [renderMaps, fgetsLinesAux, fgets]
  | cons e es ih =>
    have hr : renderMaps (e :: es) = e.lineBody ++ 10 :: renderMaps es := by
      simp [renderMaps, MapEntry.render]
    have hle := hlen e (List.mem_cons_self _ _)
    rw [render_length] at hle
    cases fuel with
    | zero =>
      rw [hr] at hfuel
      simp at hfuel
    | succ f =>
      rw [hr] at hfuel ⊢
      have hg := fgets_line n e.lineBody (renderMaps es)
        (fun c hc => (lineBody_chars e (hwf e (List.mem_cons_self _ _)) c hc).2) (by omega)
      simp only [fgetsLinesAux, hg, List.map_cons, MapEntry.render]
      rw [ih f (fun x hx => hwf x (List.mem_cons_of_mem _ hx))
        (fun x hx => hlen x (List.mem_cons_of_mem _ hx))
        (by simp only [List.length_append, List.length_cons] at hfuel; omega)]

/-- A maps file of well-formed mappings whose lines fit the buffer is read one
mapping per `fgets`. -/
theorem fgetsLines_renderMaps (n : Nat) (es : List MapEntry)
    (hwf : ∀ e ∈ es, e.wellFormed = true) (hlen : ∀ e ∈ es, e.render.length + 1 ≤ n) :
    fgetsLines n (renderMaps es) = es.map MapEntry.render :=
  fgetsLinesAux_renderMaps n es _ hwf hlen (Nat.le_refl _)

theorem strstr_permString (e : MapEntry) : strstr e.permString [120] = e.x := by
  cases e with
  | mk start stop r w x shared offset major minor inode pathname =>
    cases r <;> cases w <;> cases x <;> cases shared <;> rfl

theorem sscanfMaps_render (e : MapEntry) (h : e.wellFormed = true) :
    sscanfMaps e.render = ⟨some e.start, some e.permString, some e.devString⟩ :=
  sscanfMaps_lineBody e h [10] (by decide)

/-- The loop of `freeSpaceAddr` over the lines of well-formed mappings stops at
the first one with `x` among its permissions and yields its start address. -/
theorem freeSpaceLoop_first_exec (es : List MapEntry) (e0 : MapEntry) (addr : Nat)
    (perms : List Nat) (hwf : ∀ e ∈ es, e.wellFormed = true)
    (hx : firstWith (fun e => e.x) es = some e0) :
    freeSpaceLoop (es.map MapEntry.render) addr perms = Outcome.ok e0.start := by
  induction es generalizing addr perms with
  | nil => simp [firstWith] at hx
  | cons e es ih =>
    have hw := hwf e (List.mem_cons_self _ _)
    have hdev := devString_length e hw
    have hov : ¬ (4 < e.permString.length ∨ 19 < e.devString.length) := by
      rw [permString_length]; omega
    simp only [List.map_cons, freeSpaceLoop, sscanfMaps_render e hw, Option.getD_some,
      if_neg hov, strstr_permString]
    unfold firstWith at hx
    cases hex : e.x with
    | true =>
      simp only [hex, if_true, Option.some.injEq] at hx
      subst hx
      simp
    | false =>
      simp only [hex] at hx
      simp only [Bool.false_eq_true, if_false] at hx ⊢
      exact ih _ _ (fun x hx => hwf x (List.mem_cons_of_mem _ hx)) hx

/-- A run of hexadecimal digits followed by a byte that is neither a digit nor
`x`/`X` converts to the number the run denotes. -/
theorem strtoull16_digits (ds : List Nat) (c : Nat) (rest : List Nat) (hne : ds ≠ [])
    (hz : ∀ x ∈ ds ++ c :: rest, x ≠ 0)
    (hds : ∀ x ∈ ds, isxdigit x = true) (hc : isxdigit c = false) (hx : c ≠ 120 ∧ c ≠ 88) :
    strtoull16 (ds ++ c :: rest) = ulConv false (hexValue ds) := by
  cases ds with
  | nil => exact absurd rfl hne
  | cons d ds =>
    have hd : isxdigit d = true := hds d (List.mem_cons_self _ _)
    have hrest : ∀ x ∈ ds, isxdigit x = true := fun x hx => hds x (List.mem_cons_of_mem _ hx)
    have hdr := isxdigit_range hd
    have hsp : isspace d = false := not_isspace_of_isxdigit hd
    have h45 : d ≠ 45 := by omega
    have h43 : d ≠ 43 := by omega
    have htw := takeWhile_append_stop (d :: ds) c rest hds hc
    unfold strtoull16
    rw [cstr_eq_self _ hz]
    simp only [List.cons_append] at htw
    simp only [List.cons_append, List.dropWhile_cons, hsp, takeSign, if_neg h45, if_neg h43]
    cases ds with
    | nil =>
      have hcx : ¬ (d = 48 ∧ (c = 120 ∨ c = 88)) := by omega
      simp only [List.nil_append] at htw ⊢
      simp [h45, h43, hcx, htw]
    | cons e ds =>
      have he : isxdigit e = true := hrest e (List.mem_cons_self _ _)
      have her := isxdigit_range he
      have hex : ¬ (d = 48 ∧ (e = 120 ∨ e = 88)) := by omega
      simp only [List.cons_append] at htw ⊢
      simp [h45, h43, hex, htw]

theorem strtoull16_render (e : MapEntry) (h : e.wellFormed = true) :
    strtoull16 e.render = e.start := by
  have hs : e.start < 2 ^ 64 := by
    simp only [MapEntry.wellFormed, Bool.and_eq_true, decide_eq_true_eq] at h
    exact h.1.1.1.1.1.1
  have hline : e.render = fmtHex 8 e.start ++ 45 :: (fmtHex 8 e.stop ++ (32 ::
      (e.permString ++ (32 :: (fmtHex 8 e.offset ++ (32 :: (e.devString ++
      (32 :: (e.tailString ++ [10])))))))))  := by
    rw [MapEntry.render, lineBody_eq]; simp [List.append_assoc]
  have hz : ∀ c ∈ e.render, c ≠ 0 := by
    intro c hc
    simp only [MapEntry.render, List.mem_append, List.mem_singleton] at hc
    rcases hc with hc | hc
    · exact (lineBody_chars e h c hc).1
    · subst hc; decide
  rw [hline] at hz ⊢
  rw [strtoull16_digits _ 45 _ (fmtHex_ne_nil _ _) hz (fmtHex_isxdigit _ _) (by decide)
    (by decide), hexValue_fmtHex _ _ hs, ulConv_pos_lt _ hs]

/-- The loop of `findLibrary` over the lines of well-formed mappings yields the
start address of the first line that contains the name, and 0 if none does. -/
theorem findLibraryLoop_first_line (library : List Nat) (es : List MapEntry)
    (hwf : ∀ e ∈ es, e.wellFormed = true) :
    findLibraryLoop library (es.map MapEntry.render) =
      ((firstWith (fun e => strstr e.render library) es).map MapEntry.start).getD 0 := by
  induction es with
  | nil => rfl
  | cons e es ih =>
    have hw := hwf e (List.mem_cons_self _ _)
    have hz : ∀ c ∈ e.render, c ≠ 0 := by
      intro c hc
      simp only [MapEntry.render, List.mem_append, List.mem_singleton] at hc
      rcases hc with hc | hc
      · exact (lineBody_chars e hw c hc).1
      · subst hc; decide
    simp only [List.map_cons, findLibraryLoop, firstWith, cstr_eq_self _ hz]
    by_cases hs : strstr e.render library = true
    · rw [if_pos hs, if_pos hs, strtoull16_render e hw]
      rfl
    · rw [if_neg hs, if_neg hs]
      exact ih (fun x hx => hwf x (List.mem_cons_of_mem _ hx))

/-- C8, as stated, fails: with the name `cafe`, the first mapping whose pathname
contains the name is `/opt/cafe/libcafe.so` at `0x7fd000000000`, but
`findLibrary` returns `0x7fcafe000000`, the start of the libc mapping, whose
pathname does not contain the name and whose address column does. -/
theorem findLibrary_matches_address_column :
    (firstWith (fun e => strstr e.pathname (bytes "cafe")) cafeEntries).map MapEntry.start
      = some 0x7fd000000000 ∧
    (cafeEntries.head?.map (fun e => strstr e.pathname (bytes "cafe"))) = some false ∧
    findLibrary (some (renderMaps cafeEntries)) (bytes "cafe") = Outcome.ok 0x7fcafe000000 := by
  decide

/-- C8, amended: for a maps file of well-formed mappings whose lines are at most
9075 bytes and every name, `findLibrary` returns the start address of the first
mapping whose line contains the name anywhere in it (in any column), and 0 when
no line contains it. -/
theorem findLibrary_first_line_containing (es : List MapEntry) (library : List Nat)
    (hwf : ∀ e ∈ es, e.wellFormed = true) (hlen : ∀ e ∈ es, e.render.length ≤ 9075) :
    findLibrary (some (renderMaps es)) library =
      Outcome.ok (((firstWith (fun e => strstr e.render library) es).map MapEntry.start).getD 0) := by
  unfold findLibrary
  simp only []
  rw [fgetsLines_renderMaps 9076 es hwf (fun e he => by have := hlen e he; omega),
    findLibraryLoop_first_line library es hwf]

/-- Witness for C8 amended: the demo maps file and the name `libdl.so`. -/
theorem findLibrary_first_line_containing_witness :
    findLibrary (some (renderMaps demoEntries)) (bytes "libdl.so") = Outcome.ok 0x7f2c0a1f0000 :=
  (findLibrary_first_line_containing demoEntries (bytes "libdl.so") (by decide)
    (by decide)).trans (by decide)

/-- C10: `freeSpaceAddr` reads the maps file into `char line[850]`, so a line
of more than 849 bytes reaches `sscanf` in pieces. In a well-formed maps file
whose first executable mapping starts at `0x452000`, preceded by a read-only
mapping whose line is 855 bytes long, the second `fgets` returns the tail
`b-c x` of the long pathname, its `x` ends the loop, and `freeSpaceAddr` returns
`0xb` instead of `0x452000`. `findLibrary`, with its buffer of 9076 bytes, reads
the same lines whole. -/
theorem freeSpaceAddr_long_line :
    longEntries.all MapEntry.wellFormed = true ∧
    longEntries.map (fun e => e.render.length) = [855, 90] ∧
    (firstWith (fun e => e.x) longEntries).map MapEntry.start = some 0x452000 ∧
    (fgetsLines 850 (renderMaps longEntries)).map List.length = [849, 6, 90] ∧
    freeSpaceAddr (some (renderMaps longEntries)) 0 [] = Outcome.ok 0xb ∧
    findLibrary (some (renderMaps longEntries)) (bytes "/usr/bin/sleeper") =
      Outcome.ok 0x452000 := by
  refine ⟨?_, ?_, ?_, ?_, ?_, ?_⟩ <;> decide

/-- Where every line fits the buffer, the loop does what it is written for: for
a maps file of well-formed mappings whose lines are at most 849 bytes (what one
`fgets(line, 850, fd)` takes) and that has a mapping with `x` among its
permissions, `freeSpaceAddr` returns the start address of the first such
mapping, whatever its locals held on entry. -/
theorem freeSpaceAddr_first_exec (es : List MapEntry) (e0 : MapEntry) (addr0 : Nat)
    (perms0 : List Nat) (hwf : ∀ e ∈ es, e.wellFormed = true)
    (hlen : ∀ e ∈ es, e.render.length ≤ 849)
    (hx : firstWith (fun e => e.x) es = some e0) :
    freeSpaceAddr (some (renderMaps es)) addr0 perms0 = Outcome.ok e0.start := by
  unfold freeSpaceAddr
  simp only []
  rw [fgetsLines_renderMaps 850 es hwf (fun e he => by have := hlen e he; omega)]
  exact freeSpaceLoop_first_exec es e0 addr0 perms0 hwf hx

/-- The demo maps file, whose lines fit the buffer and whose second mapping is
the first executable one. -/
theorem freeSpaceAddr_first_exec_witness :
    freeSpaceAddr (some (renderMaps demoEntries)) 7 (bytes "rwxp") = Outcome.ok 0x452000 :=
  freeSpaceAddr_first_exec demoEntries
    ⟨0x452000, 0x4a0000, true, false, true, false, 0x52000, 8, 2, 173521,
      bytes "/usr/bin/sleeper"⟩ 7 (bytes "rwxp") (by decide) (by decide) (by decide)

/-! ### The two halves of `inject` -/

/-- The function `inject` is its first half followed by its second half. -/
theorem inject_eq_stages (env : InjectEnv) (w : World) (pid : Int) (dlopenAddr : Nat)
    (path : List Nat) :
    inject env w pid dlopenAddr path =
      match injectStage env w pid dlopenAddr path with
      | Sum.inl r => r
      | Sum.inr st => injectFinish env st := by
  unfold inject injectStage
  simp only []
  split
  · rfl
  · rfl
  · split
    · rfl
    · split
      · rfl
      · split
        · rfl
        · rfl

theorem ptracePoke_attached (w : World) (addr word : Nat) (h : w.attached = true) :
    (ptracePoke w addr word).2 = true ∧ (ptracePoke w addr word).1.attached = true ∧
      (ptracePoke w addr word).1.tracee.regs = w.tracee.regs ∧
      (ptracePoke w addr word).1.tracee.mem = pokeWord w.tracee.mem addr word ∧
      (ptracePoke w addr word).1.log = w.log ++ [PtraceReq.POKETEXT addr word] := by
  simp [ptracePoke, h]

theorem ptraceWriteLoop_attached (addr len : Nat) (data : Nat → Nat) (fuel i : Nat) (w : World)
    (h : w.attached = true) :
    (ptraceWriteLoop addr len data fuel i w).2 = true ∧
      (ptraceWriteLoop addr len data fuel i w).1.attached = true ∧
      (ptraceWriteLoop addr len data fuel i w).1.tracee.regs = w.tracee.regs := by
  induction fuel generalizing i w with
  | zero => simp [ptraceWriteLoop, h]
  | succ f ih =>
    unfold ptraceWriteLoop
    by_cases hi : i < len
    · have hp := ptracePoke_attached w ((addr + i) % 2 ^ 64) (peekWord data i) h
      have := ih (i + 8) (ptracePoke w ((addr + i) % 2 ^ 64) (peekWord data i)).1 hp.2.1
      simp only [hi, if_true, hp.1]
      rw [hp.2.2.1] at this
      exact this
    · simp [hi, h]

theorem ptraceWrite_attached (w : World) (addr : Nat) (data : Nat → Nat) (len : Nat)
    (h : w.attached = true) :
    (ptraceWrite w addr data len).2 = true ∧ (ptraceWrite w addr data len).1.attached = true ∧
      (ptraceWrite w addr data len).1.tracee.regs = w.tracee.regs :=
  ptraceWriteLoop_attached addr len data len 0 w h

theorem ptraceReadLoop_world (addr len : Nat) (fuel i : Nat) (w : World) (data : Nat → Nat) :
    (ptraceReadLoop addr len fuel i w data).1.attached = w.attached ∧
      (ptraceReadLoop addr len fuel i w data).1.tracee = w.tracee := by
  induction fuel generalizing i w data with
  | zero => simp [ptraceReadLoop]
  | succ f ih =>
    unfold ptraceReadLoop
    by_cases hi : i < len
    · simp only [hi, if_true]
      split
      · simp [ptracePoke, ptracePeek]
      · have := ih (i + 8) (ptracePeek w ((addr + i) % 2 ^ 64)).1
          (fun k => if k = i then (ptracePeek w ((addr + i) % 2 ^ 64)).2 % 256 else data k)
        simpa [ptracePeek] using this
    · simp [hi]

/-- A `ptraceRead` of a non-empty range that does not exit was made attached. -/
theorem ptraceRead_some_attached (w : World) (addr : Nat) (data : Nat → Nat) (len : Nat)
    (hlen : 0 < len) (oldcode : Nat → Nat) (h : (ptraceRead w addr data len).2 = some oldcode) :
    w.attached = true := by
  cases len with
  | zero => omega
  | succ n =>
    unfold ptraceRead ptraceReadLoop at h
    by_contra hna
    have hf : w.attached = false := by simpa using hna
    simp [ptracePeek, hf] at h

theorem ptraceWriteLoop_log (addr len : Nat) (data : Nat → Nat) (fuel i : Nat) (w : World) :
    ∃ added, (ptraceWriteLoop addr len data fuel i w).1.log = w.log ++ added ∧
      added.all stagingReq = true := by
  induction fuel generalizing i w with
  | zero => exact ⟨[], by simp [ptraceWriteLoop]⟩
  | succ f ih =>
    unfold ptraceWriteLoop
    have hlog : (ptracePoke w ((addr + i) % 2 ^ 64) (peekWord data i)).1.log =
        w.log ++ [PtraceReq.POKETEXT ((addr + i) % 2 ^ 64) (peekWord data i)] := by
      unfold ptracePoke; split <;> rfl
    by_cases hi : i < len
    · simp only [hi, if_true]
      split
      · obtain ⟨added, h1, h2⟩ := ih (i + 8)
          (ptracePoke w ((addr + i) % 2 ^ 64) (peekWord data i)).1
        refine ⟨PtraceReq.POKETEXT ((addr + i) % 2 ^ 64) (peekWord data i) :: added, ?_, ?_⟩
        · rw [h1, hlog]; simp
        · simpa [stagingReq] using h2
      · exact ⟨[PtraceReq.POKETEXT ((addr + i) % 2 ^ 64) (peekWord data i)], hlog,
          by simp [stagingReq]⟩
    · exact ⟨[], by simp [hi]⟩

theorem ptraceReadLoop_log (addr len : Nat) (fuel i : Nat) (w : World) (data : Nat → Nat) :
    ∃ added, (ptraceReadLoop addr len fuel i w data).1.log = w.log ++ added ∧
      added.all stagingReq = true := by
  induction fuel generalizing i w data with
  | zero => exact ⟨[], by simp [ptraceReadLoop]⟩
  | succ f ih =>
    unfold ptraceReadLoop
    have hlog : (ptracePeek w ((addr + i) % 2 ^ 64)).1.log =
        w.log ++ [PtraceReq.PEEKTEXT ((addr + i) % 2 ^ 64)] := rfl
    by_cases hi : i < len
    · simp only [hi, if_true]
      split
      · exact ⟨[PtraceReq.PEEKTEXT ((addr + i) % 2 ^ 64)], hlog, by simp [stagingReq]⟩
      · obtain ⟨added, h1, h2⟩ := ih (i + 8) (ptracePeek w ((addr + i) % 2 ^ 64)).1
          (fun k => if k = i then (ptracePeek w ((addr + i) % 2 ^ 64)).2 % 256 else data k)
        refine ⟨PtraceReq.PEEKTEXT ((addr + i) % 2 ^ 64) :: added, ?_, ?_⟩
        · rw [h1, hlog]; simp
        · simpa [stagingReq] using h2
    · exact ⟨[], by simp [hi]⟩

/-- What holds of the locals when the first half of `inject` completes. -/
theorem injectStage_inr (env : InjectEnv) (w : World) (pid : Int) (dlopenAddr : Nat)
    (path : List Nat) (st : Staged) (h : injectStage env w pid dlopenAddr path = Sum.inr st) :
    freeSpaceAddr env.maps env.addr0 env.perms0 = Outcome.ok st.freeaddr ∧
    st.oldregs = w.tracee.regs ∧
    st.regs = { st.oldregs with
      rip := (st.freeaddr + 32) % 2 ^ 64, rax := dlopenAddr, rdi := st.freeaddr,
      rsi := RTLD_LAZY } ∧
    st.world.attached = true ∧
    st.world.tracee.regs = st.regs ∧
    ∃ pre, st.world.log = w.log ++ pre ++ [PtraceReq.SETREGS st.regs] ∧
      pre.all stagingReq = true := by
  unfold injectStage at h
  simp only [] at h
  split at h
  · exact absurd h (by simp)
  · exact absurd h (by simp)
  · rename_i freeaddr hfree
    split at h
    · exact absurd h (by simp)
    · rename_i w3 oldcode hread
      split at h
      · exact absurd h (by simp)
      · rename_i w4 hw1
        split at h
        · exact absurd h (by simp)
        · rename_i w5 hw2
          have hst := Sum.inr.inj h
          -- the world before the window is read
          have hr2 : (ptraceRead (ptraceGetRegs (ptraceAttach env pid w).1 env.oldregs0).1
              freeaddr env.heap 256).2 = some oldcode := by rw [hread]
          have hr1 : (ptraceRead (ptraceGetRegs (ptraceAttach env pid w).1 env.oldregs0).1
              freeaddr env.heap 256).1 = w3 := by rw [hread]
          have hatt2 := ptraceRead_some_attached _ _ _ 256 (by omega) oldcode hr2
          have hw3 := ptraceReadLoop_world freeaddr 256 256 0
            (ptraceGetRegs (ptraceAttach env pid w).1 env.oldregs0).1 env.heap
          have hatt1 : (ptraceAttach env pid w).1.attached = true := hatt2
          have htr1 : (ptraceAttach env pid w).1.tracee = w.tracee := by
            unfold ptraceAttach; split <;> rfl
          have hlog1 : (ptraceAttach env pid w).1.log = w.log ++ [PtraceReq.ATTACH] := by
            unfold ptraceAttach; split <;> rfl
          have hold : (ptraceGetRegs (ptraceAttach env pid w).1 env.oldregs0).2 = w.tracee.regs := by
            simp [ptraceGetRegs, hatt1, htr1]
          have hatt3 : w3.attached = true := by
            rw [← hr1]; exact hw3.1.trans hatt2
          have h4 := ptraceWrite_attached w3 freeaddr (pathMem path env.pathTail) (strlen path) hatt3
          rw [hw1] at h4
          have h5 := ptraceWrite_attached w4 ((freeaddr + 32) % 2 ^ 64) env.thunk 256 h4.2.1
          rw [hw2] at h5
          obtain ⟨a3, hl3, ha3⟩ := ptraceReadLoop_log freeaddr 256 256 0
            (ptraceGetRegs (ptraceAttach env pid w).1 env.oldregs0).1 env.heap
          obtain ⟨a4, hl4, ha4⟩ := ptraceWriteLoop_log freeaddr (strlen path)
            (pathMem path env.pathTail) (strlen path) 0 w3
          obtain ⟨a5, hl5, ha5⟩ := ptraceWriteLoop_log ((freeaddr + 32) % 2 ^ 64) 256 env.thunk
            256 0 w4
          have hl3' : w3.log = w.log ++ [PtraceReq.ATTACH] ++ [PtraceReq.GETREGS] ++ a3 := by
            rw [← hr1]
            unfold ptraceRead
            rw [hl3]
            simp [ptraceGetRegs, hlog1]
          have hl4' : w4.log = w3.log ++ a4 := by
            have : (ptraceWrite w3 freeaddr (pathMem path env.pathTail) (strlen path)).1 = w4 := by
              rw [hw1]
            rw [← this]; exact hl4
          have hl5' : w5.log = w4.log ++ a5 := by
            have : (ptraceWrite w4 ((freeaddr + 32) % 2 ^ 64) env.thunk 256).1 = w5 := by
              rw [hw2]
            rw [← this]; exact hl5
          have hw5a : w5.attached = true := h5.2.1
          subst hst
          refine ⟨hfree, hold, ?_, ?_, ?_, ?_⟩
          · simp only [hold]
          · simpa [ptraceSetRegs] using hw5a
          · simp only [ptraceSetRegs, hw5a, if_true]
          · refine ⟨PtraceReq.ATTACH :: PtraceReq.GETREGS :: (a3 ++ a4 ++ a5), ?_, ?_⟩
            · simp [ptraceSetRegs, hl5', hl4', hl3']
            · simp only [List.all_cons, List.all_append, ha3, ha4, ha5, stagingReq, Bool.and_self]

theorem ptraceCont_attached (env : InjectEnv) (w : World) (h : w.attached = true) :
    (ptraceCont env w).1.attached = true ∧
      (ptraceCont env w).1.log = w.log ++ [PtraceReq.CONT] ∧
      (ptraceCont env w).1.tracee = (env.resume w.tracee).1 ∧
      (ptraceCont env w).2 = (env.resume w.tracee).2 := by
  simp [ptraceCont, h]

theorem ptraceCont_log (env : InjectEnv) (w : World) :
    (ptraceCont env w).1.log = w.log ++ [PtraceReq.CONT] := by
  unfold ptraceCont; split <;> rfl

/-- The second half of `inject` begins by issuing `PTRACE_CONT`. -/
theorem injectFinish_log (env : InjectEnv) (st : Staged) :
    ∃ rest, (injectFinish env st).world.log = st.world.log ++ PtraceReq.CONT :: rest := by
  unfold injectFinish
  simp only []
  split
  · split
    · obtain ⟨a, hl, _⟩ := ptraceWriteLoop_log st.freeaddr 256 st.oldcode 256 0
        (ptraceGetRegs (ptraceCont env st.world).1 st.regs).1
      have hl' : (ptraceWrite (ptraceGetRegs (ptraceCont env st.world).1 st.regs).1 st.freeaddr
          st.oldcode 256).1.log =
          (ptraceGetRegs (ptraceCont env st.world).1 st.regs).1.log ++ a := hl
      split
      · rename_i w9 hw
        rw [hw] at hl'
        exact ⟨PtraceReq.GETREGS :: a, by
          simp only [] at hl'
          rw [hl']; simp [ptraceGetRegs, ptraceCont_log]⟩
      · rename_i w9 hw
        rw [hw] at hl'
        exact ⟨PtraceReq.GETREGS :: a ++ [PtraceReq.SETREGS st.oldregs, PtraceReq.DETACH], by
          simp only [] at hl'
          simp [ptraceDetach, ptraceSetRegs, hl', ptraceGetRegs, ptraceCont_log]⟩
    · exact ⟨[PtraceReq.GETREGS], by simp [ptraceGetRegs, ptraceCont_log]⟩
  · exact ⟨[], by simp [ptraceCont_log]⟩

/-- C11: when `inject` gets as far as installing registers, the set it installs
right before `PTRACE_CONT` has `rip = S + 32`, `rax = D`, `rdi = S` and
`rsi = RTLD_LAZY`, where `S` is the address `freeSpaceAddr` returned and `D` the
`dlopen` address passed in, and every other register as saved, the saved set
being the target's registers at the attach; no other `PTRACE_SETREGS` and no
`PTRACE_CONT` precedes it in the run. -/
theorem inject_installs_staged_registers (env : InjectEnv) (w : World) (pid : Int) (D : Nat)
    (path : List Nat) (st : Staged) (h : injectStage env w pid D path = Sum.inr st) :
    freeSpaceAddr env.maps env.addr0 env.perms0 = Outcome.ok st.freeaddr ∧
    st.oldregs = w.tracee.regs ∧
    st.regs = { st.oldregs with
      rip := (st.freeaddr + 32) % 2 ^ 64, rax := D, rdi := st.freeaddr, rsi := RTLD_LAZY } ∧
    ∃ pre rest, (inject env w pid D path).world.log =
        w.log ++ pre ++ PtraceReq.SETREGS st.regs :: PtraceReq.CONT :: rest ∧
      pre.all stagingReq = true := by
  obtain ⟨hfree, hold, hregs, _, _, pre, hlog, hpre⟩ := injectStage_inr env w pid D path st h
  obtain ⟨rest, hrest⟩ := injectFinish_log env st
  refine ⟨hfree, hold, hregs, pre, rest, ?_, hpre⟩
  rw [inject_eq_stages, h]
  simp only []
  rw [hrest, hlog]
  simp

/-- C12: on the success path of `inject` (the target stops by SIGTRAP with `rax`
nonzero) `inject` returns, the last two requests it issues are
`PTRACE_SETREGS` with the registers the target had at the attach and
`PTRACE_DETACH`, and the target is left with those registers, so with the `rip`
it was interrupted at. -/
theorem inject_success_restores_registers (env : InjectEnv) (w : World) (pid : Int) (D : Nat)
    (path : List Nat) (st : Staged) (h : injectStage env w pid D path = Sum.inr st)
    (hstop : WIFSTOPPED (ptraceCont env st.world).2 = true)
    (hsig : WSTOPSIG (ptraceCont env st.world).2 = SIGTRAP)
    (hrax : (ptraceCont env st.world).1.tracee.regs.rax ≠ 0) :
    (inject env w pid D path).outcome = Outcome.ok () ∧
    st.oldregs = w.tracee.regs ∧
    (inject env w pid D path).world.tracee.regs = w.tracee.regs ∧
    (inject env w pid D path).world.tracee.regs.rip = w.tracee.regs.rip ∧
    (inject env w pid D path).world.attached = false ∧
    ∃ pre, (inject env w pid D path).world.log =
      pre ++ [PtraceReq.SETREGS w.tracee.regs, PtraceReq.DETACH] := by
  obtain ⟨_, hold, _, hatt, _, _, _, _⟩ := injectStage_inr env w pid D path st h
  have hc := ptraceCont_attached env st.world hatt
  have h8 : (ptraceGetRegs (ptraceCont env st.world).1 st.regs).1.attached = true := hc.1
  have hwr := ptraceWrite_attached (ptraceGetRegs (ptraceCont env st.world).1 st.regs).1
    st.freeaddr st.oldcode 256 h8
  have hr2 : (ptraceGetRegs (ptraceCont env st.world).1 st.regs).2 =
      (ptraceCont env st.world).1.tracee.regs := by
    simp [ptraceGetRegs, hc.1]
  have hfin : injectFinish env st = ⟨Outcome.ok (),
      ptraceDetach (ptraceSetRegs (ptraceWrite (ptraceGetRegs (ptraceCont env st.world).1
        st.regs).1 st.freeaddr st.oldcode 256).1 st.oldregs)⟩ := by
    unfold injectFinish
    simp only [hstop, hsig, hr2, beq_self_eq_true, Bool.and_self, if_true, ne_eq, hrax,
      not_false_eq_true]
    split
    · rename_i w9 hw
      rw [hw] at hwr
      exact absurd hwr.1 (by simp)
    · rename_i w9 hw
      rw [hw]
  have hinj : inject env w pid D path = injectFinish env st := by
    rw [inject_eq_stages, h]
  rw [hinj, hfin]
  refine ⟨rfl, hold, ?_, ?_, rfl, ?_⟩
  · simp [ptraceDetach, ptraceSetRegs, hwr.2.1, hold]
  · simp [ptraceDetach, ptraceSetRegs, hwr.2.1, hold]
  · exact ⟨_, by simp [ptraceDetach, ptraceSetRegs, hold]; rfl⟩

/-- Witness for C11: the demo target, scratch address `0x452000`. -/
theorem inject_installs_staged_registers_witness :
    (demoStaged 0x7f2c0b000000 0x57f).regs = { demoRegs with
      rip := 0x452020, rax := 0x7f2c0a1f1390, rdi := 0x452000, rsi := 1 } :=
  ((inject_installs_staged_registers (demoEnv 0x7f2c0b000000 0x57f) demoWorld 4242 0x7f2c0a1f1390
    (bytes "/tmp/libscope.so") (demoStaged 0x7f2c0b000000 0x57f) rfl).2.2.1).trans (by decide)

/-- Witness for C12: the demo target stopping by SIGTRAP with a nonzero `rax`. -/
theorem inject_success_restores_registers_witness :
    (demoRun 0x7f2c0b000000 0x57f).world.tracee.regs.rip = 0x4523a1 :=
  ((inject_success_restores_registers (demoEnv 0x7f2c0b000000 0x57f) demoWorld 4242
    0x7f2c0a1f1390 (bytes "/tmp/libscope.so") (demoStaged 0x7f2c0b000000 0x57f) rfl
    (by decide) (by decide) (by decide)).2.2.2.1).trans (by decide)

/-! ### What `ptraceWrite` leaves in the target -/

/-- C13: with the 16-byte agent path `/tmp/libscope.so`, when the staging is
done the target holds the 16 path bytes at `S = 0x452000` and, at `S + 16`, its
old byte `0x90` instead of a NUL: `ptraceWrite` is given `strlen(path)` bytes,
two whole words, and the terminator is in the third. -/
theorem inject_path_without_terminator :
    strlen (bytes "/tmp/libscope.so") = 16 ∧
    (demoStaged 0x7f2c0b000000 0x57f).freeaddr = 0x452000 ∧
    (List.range 17).map (fun k => (demoStaged 0x7f2c0b000000 0x57f).world.tracee.mem
      (0x452000 + k)) = bytes "/tmp/libscope.so" ++ [0x90] := by
  decide

/-- C15: on the demo target (`S = 0x452000`) the staging pokes words at
`S + 256 .. S + 280`, beyond the saved window `[S, S + 256)`; after a successful
run, write-back included, the byte at `S + 260` is 0 where the target held
`0x90`. -/
theorem inject_pokes_beyond_saved_window :
    (pokedAddrs (demoStaged 0x7f2c0b000000 0x57f).world.log).filter (fun a => 0x452000 + 256 ≤ a)
      = [0x452100, 0x452108, 0x452110, 0x452118] ∧
    (demoRun 0x7f2c0b000000 0x57f).outcome = Outcome.ok () ∧
    (demoRun 0x7f2c0b000000 0x57f).world.log.getLast? = some PtraceReq.DETACH ∧
    demoWorld.tracee.mem (0x452000 + 260) = 0x90 ∧
    (demoRun 0x7f2c0b000000 0x57f).world.tracee.mem (0x452000 + 260) = 0 := by
  decide

/-- C16: when the attach request succeeds and `waitpid` returns the target's pid
with a status that is not a stop (9: killed by SIGKILL), `ptraceAttach` returns 0. -/
theorem ptraceAttach_ignores_wait_status :
    killedEnv.attachOk = true ∧ killedEnv.attachWait = 4242 ∧
    WIFSTOPPED killedEnv.attachStatus = false ∧
    (ptraceAttach killedEnv 4242 demoWorld).2 = 0 := by
  decide

/-! ### The probe and the process test -/

theorem and_15_eq_mod (x : Nat) : x &&& 0xf = x % 16 :=
  Nat.and_pow_two_sub_one_eq_mod x 4

theorem and_3_eq_mod (x : Nat) : x &&& 0x3 = x % 4 :=
  Nat.and_pow_two_sub_one_eq_mod x 2

theorem headD_zero_iff_cstr_nil (l : List Nat) : l.headD 0 = 0 ↔ cstr l = [] := by
  cases l with
  | nil => simp [cstr]
  | cons a l =>
    by_cases ha : a = 0
    · simp [cstr, List.takeWhile_cons, ha]
    · simp [cstr, List.takeWhile_cons, ha]

/-- C17: `func_found_in_executable(symbol)` returns true exactly when the handle
on the main image is non-null, the symbol is found, both reverse lookups
succeed, the defining object's `l_name` is the empty string, the binding
`st_info >> 4` is `STB_GLOBAL`, the type `st_info & 0xf` is `STT_FUNC` and the
visibility `st_other & 0x3` is `STV_DEFAULT`. -/
theorem func_found_in_executable_iff (env : ProbeEnv) (symbol : String) :
    func_found_in_executable env symbol = true ↔
      env.exe_handle ≠ 0 ∧ env.dlsym symbol ≠ 0 ∧
      ∃ l_name st_info st_other,
        env.linkMap (env.dlsym symbol) = some l_name ∧
        env.symEnt (env.dlsym symbol) = some (st_info, st_other) ∧
        cstr l_name = [] ∧ st_info % 256 / 16 = STB_GLOBAL ∧ st_info % 16 = STT_FUNC ∧
        st_other % 4 = STV_DEFAULT := by
  unfold func_found_in_executable
  by_cases hh : env.exe_handle = 0
  · simp [hh]
  · by_cases hs : env.dlsym symbol = 0
    · simp [hh, hs]
    · simp only [hh, hs, if_false, ne_eq, not_false_eq_true, true_and]
      cases hl : env.linkMap (env.dlsym symbol) with
      | none => simp
      | some l_name =>
        cases he : env.symEnt (env.dlsym symbol) with
        | none => simp
        | some p =>
          obtain ⟨st_info, st_other⟩ := p
          simp only [ELF64_ST_BIND, ELF64_ST_TYPE, ELF64_ST_VISIBILITY, and_15_eq_mod,
            and_3_eq_mod, Nat.shiftRight_eq_div_pow, Bool.and_eq_true, beq_iff_eq,
            headD_zero_iff_cstr_nil]
          constructor
          · rintro ⟨⟨⟨h1, h2⟩, h3⟩, h4⟩
            exact ⟨l_name, st_info, st_other, rfl, rfl, h4, by simpa using h1, h2, h3⟩
          · rintro ⟨l, i, o, hl', he', h4, h1, h2, h3⟩
            cases hl'
            cases he'
            exact ⟨⟨⟨by simpa using h1, h2⟩, h3⟩, h4⟩

/-- C18, as stated, fails: `/usr/bin/rbash` ends in `bash` and `in_bash_process`
returns false for it. -/
theorem in_bash_process_rejects_rbash :
    (bytes "bash").isSuffixOf (bytes "/usr/bin/rbash") = true ∧
    in_bash_process (some (bytes "/usr/bin/rbash")) = false := by
  decide

/-- C18, amended: `in_bash_process` returns true exactly when the resolved path
of `/proc/self/exe` was obtained and ends in `/bash`; `/bin/bash` is accepted,
`/usr/bin/rbash` and `/bin/sh` are not. -/
theorem in_bash_process_iff :
    (∀ exe_path : Option (List Nat), in_bash_process exe_path = true ↔
      ∃ s dir, exe_path = some s ∧ cstr s = dir ++ bytes "/bash") ∧
    in_bash_process (some (bytes "/bin/bash")) = true ∧
    in_bash_process (some (bytes "/usr/bin/rbash")) = false ∧
    in_bash_process (some (bytes "/bin/sh")) = false := by
  refine ⟨?_, by decide, by decide, by decide⟩
  intro exe_path
  cases exe_path with
  | none => simp [in_bash_process, endsWith]
  | some s =>
    have hc : cstr (bytes "/bash") = bytes "/bash" := by decide
    simp only [in_bash_process, endsWith, hc, List.isSuffixOf_iff_suffix, Option.some.injEq]
    constructor
    · rintro ⟨dir, hd⟩
      exact ⟨s, dir, rfl, hd.symm⟩
    · rintro ⟨s', dir, hs, hd⟩
      cases hs
      exact ⟨dir, hd.symm⟩

/-! ### Resolving and patching the allocator entries -/

theorem isJmpCandidate_iff (inst : DecodedInst) :
    isJmpCandidate inst = true ↔ inst.mnemonic = "JMP" ∧ (inst.size = 2 ∨ inst.size = 5) := by
  simp only [isJmpCandidate, Bool.and_eq_true, Bool.or_eq_true, beq_iff_eq]
  constructor
  · rintro ⟨h1, h2⟩; exact ⟨h1, h2.symm⟩
  · rintro ⟨h1, h2⟩; exact ⟨h1, h2.symm⟩

theorem findJmp_first (pre : List DecodedInst) (inst : DecodedInst) (post : List DecodedInst)
    (hpre : ∀ i ∈ pre, isJmpCandidate i = false) (hinst : isJmpCandidate inst = true) :
    findJmp (pre ++ inst :: post) = some inst := by
  induction pre with
  | nil => simp [findJmp, hinst]
  | cons a pre ih =>
    have ha := hpre a (List.mem_cons_self _ _)
    simp only [List.cons_append, findJmp, ha, Bool.false_eq_true, if_false]
    exact ih (fun i hi => hpre i (List.mem_cons_of_mem _ hi))

theorem findJmp_none (insts : List DecodedInst) (h : ∀ i ∈ insts, isJmpCandidate i = false) :
    findJmp insts = none := by
  induction insts with
  | nil => rfl
  | cons a l ih =>
    have ha := h a (List.mem_cons_self _ _)
    simp only [findJmp, ha, Bool.false_eq_true, if_false]
    exact ih (fun i hi => h i (List.mem_cons_of_mem _ hi))

theorem jmpTarget_isSome (m : Mem) (inst : DecodedInst) (h : isJmpCandidate inst = true) :
    ∃ target, jmpTarget m inst = some target := by
  rw [isJmpCandidate_iff] at h
  rcases h.2 with h2 | h5
  · refine ⟨wrap64 (addInt64 (addInt64 (toInt64 inst.offset)
      (readChar m (wrap64 (toInt64 inst.offset + 1)))) 2), ?_⟩
    simp [jmpTarget, h2]
  · refine ⟨wrap64 (addInt64 (addInt64 (toInt64 inst.offset)
      (readInt32 m (wrap64 (toInt64 inst.offset + 1)))) 5), ?_⟩
    simp [jmpTarget, h5]

theorem bashMemFuncsLoop_count_le (env : BashEnv) (table : List PatchInfo) :
    (bashMemFuncsLoop env table).2 ≤ table.length := by
  induction table with
  | nil => simp [bashMemFuncsLoop]
  | cons a l ih =>
    simp only [bashMemFuncsLoop, List.length_cons]
    split <;> omega

theorem bashMemFuncsLoop_count_eq_iff (env : BashEnv) (table : List PatchInfo) :
    (bashMemFuncsLoop env table).2 = table.length ↔
      ∀ func ∈ table, (bashMemFuncStep env func).2 = true := by
  induction table with
  | nil => simp [bashMemFuncsLoop]
  | cons a l ih =>
    have hle := bashMemFuncsLoop_count_le env l
    simp only [bashMemFuncsLoop, List.length_cons, List.mem_cons, forall_eq_or_imp]
    by_cases ha : (bashMemFuncStep env a).2 = true
    · simp only [ha, if_true, true_and]
      rw [← ih]
      omega
    · simp only [ha, Bool.false_eq_true, if_false, false_and, iff_false]
      omega

theorem bashMemFuncsFound_true_iff (env : BashEnv) (table : List PatchInfo) :
    (bashMemFuncsFound env table).2 = true ↔
      env.exe_handle ≠ 0 ∧ ∀ func ∈ table, (bashMemFuncStep env func).2 = true := by
  unfold bashMemFuncsFound
  by_cases hh : env.exe_handle = 0
  · simp [hh]
  · simp only [hh, if_false, beq_iff_eq, ne_eq, not_false_eq_true, true_and]
    exact bashMemFuncsLoop_count_eq_iff env table

/-- C19: for the instructions decoded from an exported stub (found by `dlsym`,
decoding not rejected, at most 15 instructions), the entry recorded is computed
from the first instruction of the list that is a `JMP` of length 2 or 5; if the
list has none, the row is left as it was, nothing is counted, and
`bashMemFuncsFound` returns false for any table holding the row. -/
theorem bashMemFuncs_use_first_jmp (env : BashEnv) (func : PatchInfo) (insts : List DecodedInst)
    (hptr : env.dlsym func.name ≠ 0)
    (hrc : (env.decode (env.dlsym func.name)).1 ≠ DecodeResult.DECRES_INPUTERR)
    (hdec : (env.decode (env.dlsym func.name)).2 = insts) (hlen : insts.length ≤ 15) :
    (∀ pre inst post, insts = pre ++ inst :: post →
      (∀ i ∈ pre, ¬ (i.mnemonic = "JMP" ∧ (i.size = 2 ∨ i.size = 5))) →
      inst.mnemonic = "JMP" ∧ (inst.size = 2 ∨ inst.size = 5) →
      ∃ target, jmpTarget env.mem inst = some target ∧
        bashMemFuncStep env func =
          ({ func with external_addr := env.dlsym func.name, internal_addr := target }, true)) ∧
    ((∀ i ∈ insts, ¬ (i.mnemonic = "JMP" ∧ (i.size = 2 ∨ i.size = 5))) →
      bashMemFuncStep env func = (func, false) ∧
      ∀ table, func ∈ table → (bashMemFuncsFound env table).2 = false) := by
  have htake : insts.take MAX_INST = insts := List.take_of_length_le hlen
  constructor
  · intro pre inst post hsplit hpre hinst
    have hc : isJmpCandidate inst = true := (isJmpCandidate_iff inst).2 hinst
    have hpre' : ∀ i ∈ pre, isJmpCandidate i = false := by
      intro i hi
      have := hpre i hi
      rw [← isJmpCandidate_iff] at this
      simpa using this
    obtain ⟨target, ht⟩ := jmpTarget_isSome env.mem inst hc
    refine ⟨target, ht, ?_⟩
    unfold bashMemFuncStep
    simp only [hptr, if_false, hrc, hdec, htake]
    rw [hsplit, findJmp_first pre inst post hpre' hc]
    simp only [ht]
  · intro hnone
    have hnone' : ∀ i ∈ insts, isJmpCandidate i = false := by
      intro i hi
      have := hnone i hi
      rw [← isJmpCandidate_iff] at this
      simpa using this
    have hstep : bashMemFuncStep env func = (func, false) := by
      unfold bashMemFuncStep
      simp only [hptr, if_false, hrc, hdec, htake, findJmp_none insts hnone']
    refine ⟨hstep, ?_⟩
    intro table hmem
    cases hb : (bashMemFuncsFound env table).2 with
    | false => rfl
    | true =>
      have := ((bashMemFuncsFound_true_iff env table).1 hb).2 func hmem
      rw [hstep] at this
      exact absurd this (by simp)

/-- Witness for C19: a stub `push; mov; jmp rel32; jmp rel8` resolves through its
third instruction, the first `JMP`. -/
theorem bashMemFuncs_use_first_jmp_witness :
    bashMemFuncStep
        (stubEnv [⟨"PUSH", 1, 0x400100⟩, ⟨"MOV", 3, 0x400101⟩, ⟨"JMP", 5, 0x400104⟩,
          ⟨"JMP", 2, 0x400109⟩]
          (memOfBytes 0x400100 [0x55, 0x48, 0x89, 0xE5, 0xE9, 0x27, 0xF4, 0xFF, 0xFF, 0xEB, 0xEC]))
        ⟨"malloc", 0x7000, 0, 0⟩ = (⟨"malloc", 0x7000, 0x400100, 0x3ff530⟩, true) := by
  obtain ⟨target, ht, hstep⟩ := (bashMemFuncs_use_first_jmp
    (stubEnv [⟨"PUSH", 1, 0x400100⟩, ⟨"MOV", 3, 0x400101⟩, ⟨"JMP", 5, 0x400104⟩,
      ⟨"JMP", 2, 0x400109⟩]
      (memOfBytes 0x400100 [0x55, 0x48, 0x89, 0xE5, 0xE9, 0x27, 0xF4, 0xFF, 0xFF, 0xEB, 0xEC]))
    ⟨"malloc", 0x7000, 0, 0⟩ _ (by decide) (by decide) rfl (by decide)).1
    [⟨"PUSH", 1, 0x400100⟩, ⟨"MOV", 3, 0x400101⟩] ⟨"JMP", 5, 0x400104⟩ [⟨"JMP", 2, 0x400109⟩]
    rfl (by decide) (by decide)
  have h2 : target = 0x3ff530 := by
    have : jmpTarget (memOfBytes 0x400100
      [0x55, 0x48, 0x89, 0xE5, 0xE9, 0x27, 0xF4, 0xFF, 0xFF, 0xEB, 0xEC])
      ⟨"JMP", 5, 0x400104⟩ = some 0x3ff530 := by decide
    exact Option.some.inj (ht.symm.trans this)
  rw [hstep, h2]
  rfl

theorem glibcMemFuncsFound_true_iff (dlsymNext : String → Nat) :
    (glibcMemFuncsFound dlsymNext).2 = true ↔
      dlsymNext "malloc" ≠ 0 ∧ dlsymNext "realloc" ≠ 0 ∧ dlsymNext "free" ≠ 0 ∧
      dlsymNext "memalign" ≠ 0 ∧ dlsymNext "cfree" ≠ 0 := by
  simp only [glibcMemFuncsFound, Bool.and_eq_true, bne_iff_ne, ne_eq]
  tauto

/-- C20, as stated, fails: when libc has `malloc`, `realloc`, `free` and
`memalign` but no `cfree`, and every bash stub would resolve and every hook
would install, `run_bash_mem_fix` returns false having looked up no bash
function and prepared no hook. -/
theorem run_bash_mem_fix_aborts_without_cfree :
    noCfree "cfree" = 0 ∧
    (["malloc", "realloc", "free", "memalign"].all (fun n => noCfree n != 0)) = true ∧
    (bashMemFuncsFound noCfreeEnv.bash demoTable).2 = true ∧
    (replaceBashMemFuncs noCfreeEnv.hook (bashMemFuncsFound noCfreeEnv.bash demoTable).1).1 = true ∧
    run_bash_mem_fix noCfreeEnv demoTable =
      ⟨false, ⟨0x7f0000001000, 0x7f0000001000, 0x7f0000001000, 0x7f0000001000, 0⟩, demoTable, []⟩ := by
  decide

/-- C20, amended: when `dlsym(RTLD_NEXT, "cfree")` yields NULL,
`glibcMemFuncsFound` returns false and `run_bash_mem_fix` stops at the libc
lookups: it returns false, leaves `bash_mem_func` as it was and makes no
funchook call. -/
theorem run_bash_mem_fix_requires_cfree (env : FixEnv) (table : List PatchInfo)
    (h : env.dlsymNext "cfree" = 0) :
    (glibcMemFuncsFound env.dlsymNext).2 = false ∧
    (run_bash_mem_fix env table).successful = false ∧
    (run_bash_mem_fix env table).table = table ∧
    (run_bash_mem_fix env table).hooks = [] := by
  have hg : (glibcMemFuncsFound env.dlsymNext).2 = false := by
    cases hb : (glibcMemFuncsFound env.dlsymNext).2 with
    | false => rfl
    | true => exact absurd h ((glibcMemFuncsFound_true_iff _).1 hb).2.2.2.2
  refine ⟨hg, ?_, ?_, ?_⟩ <;> simp [run_bash_mem_fix, hg]

/-- Witness for C20 amended: the run in which libc lacks `cfree`. -/
theorem run_bash_mem_fix_requires_cfree_witness :
    (run_bash_mem_fix noCfreeEnv demoTable).successful = false ∧
    (run_bash_mem_fix noCfreeEnv demoTable).hooks = [] :=
  ⟨(run_bash_mem_fix_requires_cfree noCfreeEnv demoTable (by decide)).2.1,
    (run_bash_mem_fix_requires_cfree noCfreeEnv demoTable (by decide)).2.2.2⟩

theorem replaceLoop_count_le (env : HookEnv) (table : List PatchInfo) :
    (replaceLoop env table).1 ≤ table.length := by
  induction table with
  | nil => simp [replaceLoop]
  | cons a l ih =>
    simp only [replaceLoop, List.length_cons]
    split <;> omega

theorem replaceLoop_count_eq_iff (env : HookEnv) (table : List PatchInfo) :
    (replaceLoop env table).1 = table.length ↔
      ∀ func ∈ table, env.prepare func.internal_addr func.fn_ptr = 0 := by
  induction table with
  | nil => simp [replaceLoop]
  | cons a l ih =>
    have hle := replaceLoop_count_le env l
    simp only [replaceLoop, List.length_cons, List.mem_cons, forall_eq_or_imp]
    by_cases ha : env.prepare a.internal_addr a.fn_ptr = 0
    · simp only [ha, ne_eq, not_true_eq_false, if_false, true_and]
      rw [← ih]
      omega
    · simp only [ha, ne_eq, not_false_eq_true, if_true, false_and, iff_false]
      omega

theorem replaceLoop_calls (env : HookEnv) (table : List PatchInfo) :
    (replaceLoop env table).2 =
      table.map (fun f => HookCall.prepare f.internal_addr f.fn_ptr) := by
  induction table with
  | nil => rfl
  | cons a l ih => simp [replaceLoop, ih]

/-- C21: `replaceBashMemFuncs` returns true exactly when `funchook_create` gave a
handle, `funchook_prepare` returned 0 for every entry of the table and
`funchook_install` returned 0; once the handle exists it calls
`funchook_prepare` for every entry and then `funchook_install`, also when some
prepare fails, in which case it returns false; no call undoes a hook. -/
theorem replaceBashMemFuncs_iff (env : HookEnv) (table : List PatchInfo) :
    ((replaceBashMemFuncs env table).1 = true ↔
      env.createOk = true ∧
      (∀ func ∈ table, env.prepare func.internal_addr func.fn_ptr = 0) ∧ env.install = 0) ∧
    (env.createOk = true →
      (replaceBashMemFuncs env table).2 =
        HookCall.create :: table.map (fun f => HookCall.prepare f.internal_addr f.fn_ptr)
          ++ [HookCall.install]) ∧
    (env.createOk = true →
      (∃ func ∈ table, env.prepare func.internal_addr func.fn_ptr ≠ 0) →
      (replaceBashMemFuncs env table).1 = false ∧
      HookCall.install ∈ (replaceBashMemFuncs env table).2) := by
  have hiff : (replaceBashMemFuncs env table).1 = true ↔
      env.createOk = true ∧
      (∀ func ∈ table, env.prepare func.internal_addr func.fn_ptr = 0) ∧ env.install = 0 := by
    unfold replaceBashMemFuncs
    cases hc : env.createOk with
    | false => simp
    | true =>
      simp only [Bool.true_eq_false, if_false, Bool.and_eq_true, beq_iff_eq, true_and,
        replaceLoop_count_eq_iff]
      tauto
  have hcalls : env.createOk = true →
      (replaceBashMemFuncs env table).2 =
        HookCall.create :: table.map (fun f => HookCall.prepare f.internal_addr f.fn_ptr)
          ++ [HookCall.install] := by
    intro hc
    simp [replaceBashMemFuncs, hc, replaceLoop_calls]
  refine ⟨hiff, hcalls, ?_⟩
  intro hc hbad
  constructor
  · cases hb : (replaceBashMemFuncs env table).1 with
    | false => rfl
    | true =>
      obtain ⟨func, hmem, hne⟩ := hbad
      exact absurd ((hiff.1 hb).2.1 func hmem) hne
  · rw [hcalls hc]
    simp

/-- Witness for C21: preparing the hook for `free` fails; all five prepares and
the install are still called and the result is false. -/
theorem replaceBashMemFuncs_iff_witness :
    (replaceBashMemFuncs (failingPrepare 0x403000) resolvedTable).1 = false ∧
    HookCall.install ∈ (replaceBashMemFuncs (failingPrepare 0x403000) resolvedTable).2 :=
  (replaceBashMemFuncs_iff (failingPrepare 0x403000) resolvedTable).2.2 rfl
    ⟨⟨"free", 0x7020, 0x400300, 0x403000⟩, by decide, by decide⟩

/-- C25: a stub whose first instruction is `FF E0` (`jmp *%rax`), decoded as a
`JMP` of length 2, is accepted: `bashMemFuncsFound` records the internal entry
`0x4000e2`, computed as if `E0` were the displacement of a relative jump. -/
theorem bashMemFuncs_accept_indirect_jmp :
    bashMemFuncStep (stubEnv [⟨"JMP", 2, 0x400100⟩] (memOfBytes 0x400100 [0xFF, 0xE0]))
        ⟨"malloc", 0x7000, 0, 0⟩ = (⟨"malloc", 0x7000, 0x400100, 0x4000e2⟩, true) ∧
    (bashMemFuncsFound (stubEnv [⟨"JMP", 2, 0x400100⟩] (memOfBytes 0x400100 [0xFF, 0xE0]))
      demoTable).2 = true := by
  decide

/-- C29: `run_bash_mem_fix` returns true exactly when the five libc lookups are
non-null, the handle on the main image opened and every row of the table was
resolved in this call, and `replaceBashMemFuncs` on the resulting table
succeeded; if any funchook call was made at all, the libc lookups and every one
of the internal entries had been resolved in this call. -/
theorem run_bash_mem_fix_iff (env : FixEnv) (table : List PatchInfo) :
    ((run_bash_mem_fix env table).successful = true ↔
      (env.dlsymNext "malloc" ≠ 0 ∧ env.dlsymNext "realloc" ≠ 0 ∧ env.dlsymNext "free" ≠ 0 ∧
        env.dlsymNext "memalign" ≠ 0 ∧ env.dlsymNext "cfree" ≠ 0) ∧
      (env.bash.exe_handle ≠ 0 ∧ ∀ func ∈ table, (bashMemFuncStep env.bash func).2 = true) ∧
      (replaceBashMemFuncs env.hook (bashMemFuncsFound env.bash table).1).1 = true) ∧
    ((run_bash_mem_fix env table).hooks ≠ [] →
      (glibcMemFuncsFound env.dlsymNext).2 = true ∧
      env.bash.exe_handle ≠ 0 ∧ ∀ func ∈ table, (bashMemFuncStep env.bash func).2 = true) := by
  rw [← glibcMemFuncsFound_true_iff, ← bashMemFuncsFound_true_iff]
  unfold run_bash_mem_fix
  cases hg : (glibcMemFuncsFound env.dlsymNext).2 with
  | false => simp [hg]
  | true =>
    cases hb : (bashMemFuncsFound env.bash table).2 with
    | false => simp [hg, hb]
    | true =>
      cases hr : (replaceBashMemFuncs env.hook (bashMemFuncsFound env.bash table).1).1 with
      | false => simp [hg, hb, hr]
      | true => simp [hg, hb, hr]

/-- Witness for C29: a run in which every stage succeeds. -/
theorem run_bash_mem_fix_iff_witness :
    (run_bash_mem_fix goodFixEnv demoTable).successful = true ∧
    (∀ func ∈ demoTable, (bashMemFuncStep goodFixEnv.bash func).2 = true) :=
  ⟨(run_bash_mem_fix_iff goodFixEnv demoTable).1.2 ⟨by decide, by decide, by decide⟩,
    ((run_bash_mem_fix_iff goodFixEnv demoTable).2 (by decide)).2.2⟩

theorem set_append_mid {α : Type} (a : List α) (l x : α) (b : List α) :
    (a ++ l :: b).set a.length x = a ++ x :: b := by
  induction a with
  | nil => rfl
  | cons y a ih => simp [List.set, ih]

theorem getD_append_mid {α : Type} (a : List α) (l d : α) (b : List α) :
    (a ++ l :: b).getD a.length d = l := by
  induction a with
  | nil => rfl
  | cons y a ih => simpa [List.getD] using ih

theorem searchLoop_found (key : Nat) (a : List Line) (l : Line) (b : List Line) (i : Nat)
    (ha : ∀ x ∈ a, x.key ≠ 0 ∧ x.key ≠ key) (hl : l.key = key) (hk : key ≠ 0) :
    searchLoop key (a ++ l :: b) i = (some (i + a.length), i + a.length) := by
  induction a generalizing i with
  | nil =>
    have h0 : l.key ≠ 0 := by rw [hl]; exact hk
    simp [searchLoop, hl, hk]
  | cons y a ih =>
    have hy := ha y (List.mem_cons_self _ _)
    have hne : ¬ key = y.key := fun h => hy.2 h.symm
    simp only [List.cons_append, searchLoop, hy.1, if_false, hne, List.length_cons]
    show searchLoop key (a ++ l :: b) (i + 1) = _
    rw [ih (i + 1) (fun x hx => ha x (List.mem_cons_of_mem _ hx))]
    have hadd : i + 1 + a.length = i + (a.length + 1) := by omega
    rw [hadd]

theorem searchLoop_free (key : Nat) (a : List Line) (l : Line) (b : List Line) (i : Nat)
    (ha : ∀ x ∈ a, x.key ≠ 0 ∧ x.key ≠ key) (hl : l.key = 0) :
    searchLoop key (a ++ l :: b) i = (none, i + a.length) := by
  induction a generalizing i with
  | nil => simp [searchLoop, hl]
  | cons y a ih =>
    have hy := ha y (List.mem_cons_self _ _)
    have hne : ¬ key = y.key := fun h => hy.2 h.symm
    simp only [List.cons_append, searchLoop, hy.1, if_false, hne, List.length_cons]
    show searchLoop key (a ++ l :: b) (i + 1) = _
    rw [ih (i + 1) (fun x hx => ha x (List.mem_cons_of_mem _ hx))]
    congr 1; omega

theorem searchLoop_full (key : Nat) (a : List Line) (i : Nat)
    (ha : ∀ x ∈ a, x.key ≠ 0 ∧ x.key ≠ key) :
    searchLoop key a i = (none, i + a.length) := by
  induction a generalizing i with
  | nil => simp [searchLoop]
  | cons y a ih =>
    have hy := ha y (List.mem_cons_self _ _)
    have hne : ¬ key = y.key := fun h => hy.2 h.symm
    simp only [searchLoop, hy.1, if_false, hne, List.length_cons]
    rw [ih (i + 1) (fun x hx => ha x (List.mem_cons_of_mem _ hx))]
    congr 1; omega

/-- Adding a key that a line already holds updates that line and no other. -/
theorem dbgAddLineHelper_present (fuel : Nat) (key : Nat) (a : List Line) (l : Line)
    (b : List Line) (str : Option (List Nat)) (now errno : Int)
    (ha : ∀ x ∈ a, x.key ≠ 0 ∧ x.key ≠ key) (hl : l.key = key) (hk : key ≠ 0) :
    dbgAddLineHelper (fuel + 1) (a ++ l :: b) key str now errno =
      a ++ updateLine l str now errno :: b := by
  unfold dbgAddLineHelper
  rw [searchLoop_found key a l b 0 ha hl hk]
  simp only [Nat.zero_add]
  rw [getD_append_mid, set_append_mid]

/-- Adding a key no line holds, while a slot is free, claims the first free slot. -/
theorem dbgAddLineHelper_claim (fuel : Nat) (key : Nat) (a : List Line) (l : Line)
    (b : List Line) (str : Option (List Nat)) (now errno : Int)
    (ha : ∀ x ∈ a, x.key ≠ 0 ∧ x.key ≠ key) (hl : l.key = 0)
    (hlen : a.length < MAX_NUM_LINES) :
    dbgAddLineHelper (fuel + 1) (a ++ l :: b) key str now errno =
      a ++ updateLine { l with key := key } str now errno :: b := by
  unfold dbgAddLineHelper
  rw [searchLoop_free key a l b 0 ha hl]
  have hnot : ¬ MAX_NUM_LINES ≤ 0 + a.length := by omega
  simp only [Nat.zero_add] at hnot ⊢
  rw [if_neg hnot, getD_append_mid, if_pos hl, set_append_mid]

/-- Adding a key no line holds to a table without a free slot changes nothing. -/
theorem dbgAddLineHelper_full (fuel : Nat) (key : Nat) (a : List Line)
    (str : Option (List Nat)) (now errno : Int)
    (ha : ∀ x ∈ a, x.key ≠ 0 ∧ x.key ≠ key) (hlen : MAX_NUM_LINES ≤ a.length) :
    dbgAddLineHelper (fuel + 1) a key str now errno = a := by
  unfold dbgAddLineHelper
  rw [searchLoop_full key a 0 ha]
  simp only [Nat.zero_add]
  rw [if_pos hlen]

theorem countLinesLoop_le (lines : List Line) (i : Nat) :
    countLinesLoop lines i ≤ max i MAX_NUM_LINES := by
  induction lines generalizing i with
  | nil => simp [countLinesLoop]
  | cons l rest ih =>
    unfold countLinesLoop
    by_cases hi : i < MAX_NUM_LINES
    · rw [if_pos hi]
      by_cases hk : l.key = 0
      · rw [if_pos hk]; omega
      · rw [if_neg hk]
        have := ih (i + 1)
        omega
    · rw [if_neg hi]; omega

theorem countLinesLoop_prefix (used : List Line) (rest : List Line) (i : Nat)
    (hused : ∀ l ∈ used, l.key ≠ 0) (hrest : ∀ l, rest.head? = some l → l.key = 0)
    (hlen : i + used.length ≤ MAX_NUM_LINES) :
    countLinesLoop (used ++ rest) i = i + used.length := by
  induction used generalizing i with
  | nil =>
    cases rest with
    | nil => simp [countLinesLoop]
    | cons l r =>
      have hl := hrest l rfl
      simp only [List.nil_append, countLinesLoop, hl, if_true, List.length_nil, Nat.add_zero]
      split <;> rfl
  | cons u used ih =>
    have hu := hused u (List.mem_cons_self _ _)
    simp only [List.length_cons] at hlen
    have hi : i < MAX_NUM_LINES := by omega
    simp only [List.cons_append, countLinesLoop, if_pos hi, if_neg hu, List.length_cons]
    show countLinesLoop (used ++ rest) (i + 1) = _
    rw [ih (i + 1) (fun l hl => hused l (List.mem_cons_of_mem _ hl)) (by omega)]
    omega

/-- C23: whatever calls of `dbgInit` and `dbgAddLine` are made,
`dbgCountAllLines()` is at most 256; and a `dbgAddLine` with a key that none of
the 256 lines of a full table holds leaves the table as it is. -/
theorem dbg_table_bounded :
    (∀ (g_dbg : Option (List Line)) (ops : List DbgOp),
      dbgCountAllLines (dbgRun g_dbg ops) ≤ 256) ∧
    (∀ (lines : List Line) (key : Nat) (str : Option (List Nat)) (now errno : Int),
      lines.length = 256 → (∀ l ∈ lines, l.key ≠ 0) → (∀ l ∈ lines, l.key ≠ key) →
      dbgAddLine (some lines) key str now errno = some lines) := by
  constructor
  · intro g ops
    cases h : dbgRun g ops with
    | none => simp [dbgCountAllLines]
    | some lines =>
      have := countLinesLoop_le lines 0
      simpa [dbgCountAllLines, MAX_NUM_LINES] using this
  · intro lines key str now errno hlen h0 hk
    simp only [dbgAddLine]
    rw [dbgAddLineHelper_full 0 key lines str now errno (fun x hx => ⟨h0 x hx, hk x hx⟩)
      (by rw [hlen]; decide)]

/-- Witness for C23: a further key on the full table. -/
theorem dbg_table_bounded_witness :
    dbgAddLine (some fullTable) 0x9000 (some (bytes "no room")) 1700000001 0 = some fullTable :=
  dbg_table_bounded.2 fullTable 0x9000 (some (bytes "no room")) 1700000001 0 (by decide)
    (by decide) (by decide)

theorem updateLine_key (line : Line) (str : Option (List Nat)) (now errno : Int) :
    (updateLine line str now errno).key = line.key := rfl

theorem updateAll_key (line : Line) (occs : List Occurrence) :
    (updateAll line occs).key = line.key := by
  unfold updateAll
  induction occs generalizing line with
  | nil => rfl
  | cons o os ih => rw [List.foldl_cons, ih, updateLine_key]

/-- A line that has been added at least once keeps its first instance and takes
each further occurrence in its second. -/
theorem updateAll_later (k c : Nat) (x y : Occurrence) (occs : List Occurrence)
    (hc : 1 ≤ c) (hwrap : c + occs.length < 2 ^ 64) :
    updateAll ⟨k, c, [x, y]⟩ occs = ⟨k, c + occs.length, [x, occs.getLast?.getD y]⟩ := by
  induction occs generalizing c y with
  | nil => rfl
  | cons o os ih =>
    simp only [List.length_cons] at hwrap
    have hstep : updateLine ⟨k, c, [x, y]⟩ o.str o.time o.err = ⟨k, c + 1, [x, o]⟩ := by
      have hmod : (c + 1) % 2 ^ 64 = c + 1 := Nat.mod_eq_of_lt (by omega)
      unfold updateLine
      simp only [hmod, MAX_INSTANCES_PER_LINE]
      by_cases h2 : c < 2
      · have : c = 1 := by omega
        subst this
        rfl
      · rw [if_neg h2]
        rfl
    unfold updateAll at ih ⊢
    rw [List.foldl_cons, hstep, ih (c + 1) o (by omega) (by omega)]
    congr 1
    · simp only [List.length_cons]; omega
    · cases os with
      | nil => rfl
      | cons o2 os2 => simp [List.getLast?]

/-- C28: one `updateLine` on a line whose count is `c` (below `2 ^ 64 - 1`)
leaves the key, makes the count `c + 1`, stores the occurrence in
`instance[min(c, 1)]` and leaves the other instance; so a line claimed for a
key and then updated with occurrences `first, ..., last` has the number of
occurrences as its count, `first` in `instance[0]` and, if there were at least
two, `last` in `instance[1]`; and `dbgAddLine` with a key a line holds applies
`updateLine` to that line and changes no other. -/
theorem dbg_line_keeps_first_and_last :
    (∀ (line : Line) (str : Option (List Nat)) (now errno : Int),
      line.instances.length = 2 → line.count + 1 < 2 ^ 64 →
      (updateLine line str now errno).key = line.key ∧
      (updateLine line str now errno).count = line.count + 1 ∧
      (updateLine line str now errno).instances.length = 2 ∧
      (updateLine line str now errno).instances[min line.count 1]? = some ⟨now, errno, str⟩ ∧
      ∀ j, j ≠ min line.count 1 →
        (updateLine line str now errno).instances[j]? = line.instances[j]?) ∧
    (∀ (k : Nat) (first : Occurrence) (rest : List Occurrence), rest.length + 1 < 2 ^ 64 →
      updateAll { zeroLine with key := k } (first :: rest) =
        ⟨k, rest.length + 1, [first, rest.getLast?.getD zeroOccurrence]⟩) ∧
    (∀ (a : List Line) (l : Line) (b : List Line) (str : Option (List Nat)) (now errno : Int),
      (∀ x ∈ a, x.key ≠ 0 ∧ x.key ≠ l.key) → l.key ≠ 0 →
      dbgAddLine (some (a ++ l :: b)) l.key str now errno =
        some (a ++ updateLine l str now errno :: b)) := by
  refine ⟨?_, ?_, ?_⟩
  · intro line str now errno hlen hc
    have hmod : (line.count + 1) % 2 ^ 64 = line.count + 1 := Nat.mod_eq_of_lt hc
    have hidx : (if line.count < MAX_INSTANCES_PER_LINE then line.count
        else MAX_INSTANCES_PER_LINE - 1) = min line.count 1 := by
      simp only [MAX_INSTANCES_PER_LINE]
      split <;> omega
    simp only [updateLine, hmod, hidx, List.length_set, hlen, true_and]
    refine ⟨?_, ?_⟩
    · rw [List.getElem?_set_self]
      simp [hlen]
    · intro j hj
      rw [List.getElem?_set_ne (Ne.symm hj)]
  · intro k first rest hwrap
    have h1 : updateLine { zeroLine with key := k } first.str first.time first.err =
        ⟨k, 1, [first, zeroOccurrence]⟩ := rfl
    unfold updateAll
    rw [List.foldl_cons, h1]
    have := updateAll_later k 1 first zeroOccurrence rest (by omega) (by omega)
    unfold updateAll at this
    rw [this]
    congr 1
    omega
  · intro a l b str now errno ha hl
    simp only [dbgAddLine]
    rw [dbgAddLineHelper_present 0 l.key a l b str now errno ha rfl hl]

/-- Witness for C28: a line updated a third time, and a line that got three
occurrences since it was claimed. -/
theorem dbg_line_keeps_first_and_last_witness :
    (updateLine ⟨0x1000, 2, [⟨5, 0, none⟩, ⟨7, 0, some [66]⟩]⟩ (some [67]) 8 0).count = 2 + 1 ∧
    updateAll { zeroLine with key := 0x1000 } [⟨5, 0, none⟩, ⟨7, 0, some [66]⟩, ⟨8, 0, some [67]⟩]
      = ⟨0x1000, 3, [⟨5, 0, none⟩, ⟨8, 0, some [67]⟩]⟩ :=
  ⟨(dbg_line_keeps_first_and_last.1 ⟨0x1000, 2, [⟨5, 0, none⟩, ⟨7, 0, some [66]⟩]⟩ (some [67]) 8 0
      rfl (by decide)).2.1,
    dbg_line_keeps_first_and_last.2.1 0x1000 ⟨5, 0, none⟩ [⟨7, 0, some [66]⟩, ⟨8, 0, some [67]⟩]
      (by decide)⟩

theorem updateAll_count (line : Line) (occs : List Occurrence)
    (hwrap : line.count + occs.length < 2 ^ 64) :
    (updateAll line occs).count = line.count + occs.length := by
  unfold updateAll
  induction occs generalizing line with
  | nil => rfl
  | cons o os ih =>
    simp only [List.length_cons] at hwrap
    have h1 : (updateLine line o.str o.time o.err).count = line.count + 1 := by
      simp only [updateLine]
      exact Nat.mod_eq_of_lt (by omega)
    rw [List.foldl_cons, ih _ (by rw [h1]; omega), h1]
    simp only [List.length_cons]
    omega

theorem dbgRun_adds_present (k : Nat) (a : List Line) (l : Line) (b : List Line)
    (occs : List Occurrence) (ha : ∀ x ∈ a, x.key ≠ 0 ∧ x.key ≠ k) (hl : l.key = k)
    (hk : k ≠ 0) :
    dbgRun (some (a ++ l :: b)) (addsOf k occs) = some (a ++ updateAll l occs :: b) := by
  induction occs generalizing l with
  | nil => rfl
  | cons o os ih =>
    have hstep : dbgStep (some (a ++ l :: b)) (DbgOp.add k o.str o.time o.err) =
        some (a ++ updateLine l o.str o.time o.err :: b) := by
      simp only [dbgStep, dbgAddLine]
      rw [dbgAddLineHelper_present 0 k a l b o.str o.time o.err ha hl hk]
    have := ih (updateLine l o.str o.time o.err) hl
    unfold dbgRun addsOf at this ⊢
    rw [List.map_cons, List.foldl_cons, hstep, this]
    rfl

theorem dbgRun_adds_absent (k : Nat) (used : List Line) (m : Nat) (o : Occurrence)
    (os : List Occurrence) (hused : ∀ x ∈ used, x.key ≠ 0 ∧ x.key ≠ k) (hk : k ≠ 0)
    (hlen : used.length < MAX_NUM_LINES) :
    dbgRun (some (used ++ List.replicate (m + 1) zeroLine)) (addsOf k (o :: os)) =
      some (used ++ updateAll { zeroLine with key := k } (o :: os) :: List.replicate m zeroLine) := by
  have hstep : dbgStep (some (used ++ zeroLine :: List.replicate m zeroLine))
      (DbgOp.add k o.str o.time o.err) =
      some (used ++ updateLine { zeroLine with key := k } o.str o.time o.err ::
        List.replicate m zeroLine) := by
    simp only [dbgStep, dbgAddLine]
    rw [dbgAddLineHelper_claim 0 k used zeroLine (List.replicate m zeroLine) o.str o.time o.err
      hused rfl hlen]
  have := dbgRun_adds_present k used (updateLine { zeroLine with key := k } o.str o.time o.err)
    (List.replicate m zeroLine) os hused rfl hk
  unfold dbgRun addsOf at this ⊢
  rw [List.replicate_succ, List.map_cons, List.foldl_cons, hstep, this]
  rfl

theorem countsOf_single (k : Nat) (a : List Line) (l : Line) (b : List Line)
    (ha : ∀ x ∈ a, x.key ≠ k) (hl : l.key = k) (hb : ∀ x ∈ b, x.key ≠ k) :
    countsOf k (a ++ l :: b) = [l.count] := by
  have hfa : a.filter (fun l => l.key == k) = [] := by
    rw [List.filter_eq_nil_iff]
    intro x hx
    simpa using ha x hx
  have hfb : b.filter (fun l => l.key == k) = [] := by
    rw [List.filter_eq_nil_iff]
    intro x hx
    simpa using hb x hx
  simp [countsOf, List.filter_append, List.filter_cons, hfa, hfb, hl]

/-- C22: the table is keyed by the pointer and coalesces repeats. On a table
of 256 lines whose used lines come first, with a free line and without the
non-null key `k`, `n >= 1` calls of `dbgAddLine` with `k` leave exactly one
line with key `k`, and its count is `n`; on a table where one line holds `k`
with count `c`, they leave exactly that one line with key `k`, with count
`c + n`; and two calls with distinct non-null pointers `k1`, `k2` that are not
in the table, whatever strings they point to (also equal ones), leave one line
for each, both with count 1. Counts are below `2 ^ 64`. -/
theorem dbg_key_coalesces :
    (∀ (used : List Line) (m k : Nat) (occs : List Occurrence),
      used.length + m = 256 → 1 ≤ m → (∀ x ∈ used, x.key ≠ 0 ∧ x.key ≠ k) → k ≠ 0 →
      occs ≠ [] → occs.length < 2 ^ 64 →
      ∃ lines, dbgRun (some (used ++ List.replicate m zeroLine)) (addsOf k occs) = some lines ∧
        lines.length = 256 ∧ countsOf k lines = [occs.length]) ∧
    (∀ (a : List Line) (l : Line) (b : List Line) (occs : List Occurrence),
      (∀ x ∈ a, x.key ≠ 0 ∧ x.key ≠ l.key) → (∀ x ∈ b, x.key ≠ l.key) → l.key ≠ 0 →
      l.count + occs.length < 2 ^ 64 →
      ∃ lines, dbgRun (some (a ++ l :: b)) (addsOf l.key occs) = some lines ∧
        lines.length = (a ++ l :: b).length ∧ countsOf l.key lines = [l.count + occs.length]) ∧
    (∀ (used : List Line) (m k1 k2 : Nat) (contents : Nat → List Nat) (o1 o2 : Occurrence),
      used.length + m = 256 → 2 ≤ m → (∀ x ∈ used, x.key ≠ 0 ∧ x.key ≠ k1 ∧ x.key ≠ k2) →
      k1 ≠ 0 → k2 ≠ 0 → k1 ≠ k2 → contents k1 = contents k2 →
      ∃ lines, dbgRun (some (used ++ List.replicate m zeroLine))
          (addsOf k1 [o1] ++ addsOf k2 [o2]) = some lines ∧
        countsOf k1 lines = [1] ∧ countsOf k2 lines = [1] ∧
        dbgCountAllLines (some lines) = used.length + 2) := by
  refine ⟨?_, ?_, ?_⟩
  · intro used m k occs hlen hm hused hk hne hwrap
    obtain ⟨m', rfl⟩ : ∃ m', m = m' + 1 := ⟨m - 1, by omega⟩
    obtain ⟨o, os, rfl⟩ : ∃ o os, occs = o :: os := by
      cases occs with
      | nil => exact absurd rfl hne
      | cons o os => exact ⟨o, os, rfl⟩
    refine ⟨_, dbgRun_adds_absent k used m' o os hused hk
      (by simp only [MAX_NUM_LINES]; omega), ?_, ?_⟩
    · simp only [List.length_append, List.length_cons, List.length_replicate]
      omega
    · rw [countsOf_single k used _ _ (fun x hx => (hused x hx).2) (updateAll_key _ _)
        (by
          intro x hx
          rw [List.eq_of_mem_replicate hx]
          exact fun h => hk h.symm)]
      rw [updateAll_count _ _ (by simpa [zeroLine] using hwrap)]
      simp [zeroLine]
  · intro a l b occs ha hb hl hwrap
    refine ⟨_, dbgRun_adds_present l.key a l b occs ha rfl hl, ?_, ?_⟩
    · simp
    · rw [countsOf_single l.key a _ b (fun x hx => (ha x hx).2) (updateAll_key _ _) hb,
        updateAll_count _ _ hwrap]
  · intro used m k1 k2 contents o1 o2 hlen hm hused hk1 hk2 hne _
    obtain ⟨m', rfl⟩ : ∃ m', m = m' + 2 := ⟨m - 2, by omega⟩
    have h1 := dbgRun_adds_absent k1 used (m' + 1) o1 []
      (fun x hx => ⟨(hused x hx).1, (hused x hx).2.1⟩) hk1 (by simp only [MAX_NUM_LINES]; omega)
    have hused2 : ∀ x ∈ used ++ [updateAll { zeroLine with key := k1 } [o1]],
        x.key ≠ 0 ∧ x.key ≠ k2 := by
      intro x hx
      rcases List.mem_append.1 hx with hx | hx
      · exact ⟨(hused x hx).1, (hused x hx).2.2⟩
      · rw [List.mem_singleton.1 hx, updateAll_key]
        exact ⟨hk1, hne⟩
    have h2 := dbgRun_adds_absent k2 (used ++ [updateAll { zeroLine with key := k1 } [o1]]) m' o2 []
      hused2 hk2 (by simp only [MAX_NUM_LINES, List.length_append, List.length_singleton]; omega)
    have hrun : dbgRun (some (used ++ List.replicate (m' + 2) zeroLine))
        (addsOf k1 [o1] ++ addsOf k2 [o2]) =
        some (used ++ updateAll { zeroLine with key := k1 } [o1] ::
          updateAll { zeroLine with key := k2 } [o2] :: List.replicate m' zeroLine) := by
      unfold dbgRun at h1 h2 ⊢
      rw [List.foldl_append, h1]
      simpa [List.append_assoc] using h2
    refine ⟨_, hrun, ?_, ?_, ?_⟩
    · rw [countsOf_single k1 used _ _ (fun x hx => (hused x hx).2.1) (updateAll_key _ _)
        (by
          intro x hx
          rcases List.mem_cons.1 hx with hx | hx
          · rw [hx, updateAll_key]
            exact fun h => hne h.symm
          · rw [List.eq_of_mem_replicate hx]
            exact fun h => hk1 h.symm)]
      rfl
    · have := countsOf_single k2 (used ++ [updateAll { zeroLine with key := k1 } [o1]])
        (updateAll { zeroLine with key := k2 } [o2]) (List.replicate m' zeroLine)
        (fun x hx => (hused2 x hx).2) (updateAll_key _ _)
        (by
          intro x hx
          rw [List.eq_of_mem_replicate hx]
          exact fun h => hk2 h.symm)
      simp only [List.append_assoc, List.singleton_append] at this
      rw [this]
      rfl
    · have := countLinesLoop_prefix
        (used ++ [updateAll { zeroLine with key := k1 } [o1],
          updateAll { zeroLine with key := k2 } [o2]]) (List.replicate m' zeroLine) 0
        (by
          intro x hx
          rcases List.mem_append.1 hx with hx | hx
          · exact (hused x hx).1
          · simp only [List.mem_cons, List.mem_singleton, List.not_mem_nil, or_false] at hx
            rcases hx with hx | hx
            · rw [hx, updateAll_key]; exact hk1
            · rw [hx, updateAll_key]; exact hk2)
        (by
          intro l hl
          cases m' with
          | zero => simp at hl
          | succ j =>
            simp [List.replicate_succ] at hl
            rw [← hl]
            rfl)
        (by simp only [MAX_NUM_LINES, List.length_append, List.length_cons, List.length_nil]; omega)
      simp only [dbgCountAllLines]
      simpa [List.append_assoc] using this

/-- Witness for C22: three calls with one key on a fresh table, and the two
pointers `0x1000` and `0x2000` to the same text. -/
theorem dbg_key_coalesces_witness :
    (∃ lines, dbgRun (some ([] ++ List.replicate 256 zeroLine))
        (addsOf 0x1000 [⟨5, 0, none⟩, ⟨7, 2, none⟩, ⟨8, 0, some (bytes "x")⟩]) = some lines ∧
      lines.length = 256 ∧ countsOf 0x1000 lines = [3]) ∧
    (∃ lines, dbgRun (some ([] ++ List.replicate 256 zeroLine))
        (addsOf 0x1000 [⟨5, 0, none⟩] ++ addsOf 0x2000 [⟨6, 0, none⟩]) = some lines ∧
      countsOf 0x1000 lines = [1] ∧ countsOf 0x2000 lines = [1] ∧
      dbgCountAllLines (some lines) = 0 + 2) :=
  ⟨dbg_key_coalesces.1 [] 256 0x1000 [⟨5, 0, none⟩, ⟨7, 2, none⟩, ⟨8, 0, some (bytes "x")⟩]
      rfl (by decide) (by simp) (by decide) (by simp) (by decide),
    dbg_key_coalesces.2.2 [] 256 0x1000 0x2000 (fun _ => bytes "read failed")
      ⟨5, 0, none⟩ ⟨6, 0, none⟩ rfl (by decide) (by simp) (by decide) (by decide) (by decide) rfl⟩

theorem firstKeys_append_singleton (ks : List Nat) (k : Nat) :
    firstKeys (ks ++ [k]) = if k ∈ firstKeys ks then firstKeys ks else firstKeys ks ++ [k] := by
  simp [firstKeys, List.foldl_append]

theorem mem_firstKeys (ks : List Nat) : ∀ k, k ∈ firstKeys ks ↔ k ∈ ks := by
  induction ks using List.reverseRecOn with
  | nil => simp [firstKeys]
  | append_singleton l a ih =>
    intro k
    rw [firstKeys_append_singleton]
    by_cases h : a ∈ firstKeys l
    · rw [if_pos h, ih k, List.mem_append, List.mem_singleton]
      constructor
      · exact Or.inl
      · rintro (hk | rfl)
        · exact hk
        · exact (ih k).1 h
    · rw [if_neg h, List.mem_append, List.mem_append, ih k]

theorem firstKeys_nodup (ks : List Nat) : (firstKeys ks).Nodup := by
  induction ks using List.reverseRecOn with
  | nil => simp [firstKeys]
  | append_singleton l a ih =>
    rw [firstKeys_append_singleton]
    by_cases h : a ∈ firstKeys l
    · rw [if_pos h]; exact ih
    · rw [if_neg h]
      exact List.Nodup.append ih (List.nodup_singleton a) (by simpa using h)

theorem firstKeys_length (ks : List Nat) : (firstKeys ks).length = ks.dedup.length := by
  rw [← List.toFinset_card_of_nodup (firstKeys_nodup ks), ← List.card_toFinset]
  congr 1
  ext k
  simp [mem_firstKeys]

/-- What a series of calls that starts without a table leaves: no table, or a
table of 256 lines whose used lines come first and hold the distinct keys added
since the last `dbgInit`, in order of first appearance, as far as they fit. -/
theorem dbgRun_invariant (ops : List DbgOp) :
    (∀ key str now errno, DbgOp.add key str now errno ∈ ops → key ≠ 0) →
    (dbgRun none ops = none ∧ keysSinceInit ops = none) ∨
    ∃ used m ks, dbgRun none ops = some (used ++ List.replicate m zeroLine) ∧
      keysSinceInit ops = some ks ∧ used.length + m = 256 ∧
      used.map (fun l => l.key) = (firstKeys ks).take 256 ∧ ∀ k ∈ ks, k ≠ 0 := by
  induction ops using List.reverseRecOn with
  | nil => intro _; exact Or.inl ⟨rfl, rfl⟩
  | append_singleton ops op ih =>
    intro hops
    have hrun : dbgRun none (ops ++ [op]) = dbgStep (dbgRun none ops) op := by
      simp [dbgRun, List.foldl_append]
    have hkeys : keysSinceInit (ops ++ [op]) = keysStep (keysSinceInit ops) op := by
      simp [keysSinceInit, List.foldl_append]
    rw [hrun, hkeys]
    have ih := ih (fun key str now errno h => hops key str now errno
      (List.mem_append.2 (Or.inl h)))
    cases op with
    | init ok =>
      cases ok with
      | false => exact Or.inl ⟨rfl, rfl⟩
      | true =>
        refine Or.inr ⟨[], 256, [], ?_, rfl, rfl, rfl, by simp⟩
        simp [dbgStep, dbgInit, MAX_NUM_LINES]
    | add k str now errno =>
      have hk : k ≠ 0 := hops k str now errno (by simp)
      rcases ih with ⟨h1, h2⟩ | ⟨used, m, ks, h1, h2, hlen, hmap, hnz⟩
      · rw [h1, h2]; exact Or.inl ⟨rfl, rfl⟩
      · rw [h1, h2]
        have hnodup : (used.map (fun l => l.key)).Nodup := by
          rw [hmap]
          exact (firstKeys_nodup ks).sublist (List.take_sublist _ _)
        have husednz : ∀ x ∈ used, x.key ≠ 0 := by
          intro x hx
          have : x.key ∈ (firstKeys ks).take 256 := by
            rw [← hmap]; exact List.mem_map_of_mem _ hx
          exact hnz _ ((mem_firstKeys ks _).1 (List.mem_of_mem_take this))
        have hnz2 : ∀ k2 ∈ ks ++ [k], k2 ≠ 0 := by
          intro k2 hk2
          rcases List.mem_append.1 hk2 with h | h
          · exact hnz k2 h
          · rw [List.mem_singleton.1 h]; exact hk
        simp only [dbgStep, dbgAddLine, keysStep, Option.map_some']
        by_cases hmem : k ∈ used.map (fun l => l.key)
        · obtain ⟨l, hl, hlk⟩ := List.mem_map.1 hmem
          obtain ⟨a, b, rfl⟩ := List.append_of_mem hl
          have hlk : l.key = k := hlk
          have ha : ∀ x ∈ a, x.key ≠ 0 ∧ x.key ≠ k := by
            intro x hx
            refine ⟨husednz x (List.mem_append.2 (Or.inl hx)), ?_⟩
            intro hxk
            simp only [List.map_append, List.map_cons] at hnodup
            have hd := (List.nodup_append.1 hnodup).2.2
            exact hd (List.mem_map_of_mem (fun l => l.key) hx)
              (by rw [hxk, hlk]; exact List.mem_cons_self _ _)
          refine Or.inr ⟨a ++ updateLine l str now errno :: b, m, ks ++ [k], ?_, rfl, ?_, ?_, hnz2⟩
          · have := dbgAddLineHelper_present 0 k a l (b ++ List.replicate m zeroLine)
              str now errno ha hlk hk
            simp only [List.append_assoc, List.cons_append] at this ⊢
            rw [this]
          · simpa using hlen
          · have hkin : k ∈ firstKeys ks := by
              have : k ∈ (firstKeys ks).take 256 := by rw [← hmap]; exact hmem
              exact List.mem_of_mem_take this
            rw [firstKeys_append_singleton, if_pos hkin, ← hmap]
            simp [updateLine_key]
        · have hused : ∀ x ∈ used, x.key ≠ 0 ∧ x.key ≠ k := by
            intro x hx
            exact ⟨husednz x hx, fun h => hmem (h ▸ List.mem_map_of_mem (fun l => l.key) hx)⟩
          have hlenmap : ((firstKeys ks).take 256).length = used.length := by
            rw [← hmap, List.length_map]
          rw [List.length_take] at hlenmap
          cases m with
          | zero =>
            refine Or.inr ⟨used, 0, ks ++ [k], ?_, rfl, hlen, ?_, hnz2⟩
            · have := dbgAddLineHelper_full 0 k used str now errno hused
                (by simp only [MAX_NUM_LINES]; omega)
              simp only [List.replicate_zero, List.append_nil]
              rw [this]
            · rw [hmap, firstKeys_append_singleton]
              split
              · rfl
              · rw [List.take_append_of_le_length (by omega)]
          | succ m2 =>
            have hfk : (firstKeys ks).length < 256 := by omega
            have htake : (firstKeys ks).take 256 = firstKeys ks :=
              List.take_of_length_le (by omega)
            rw [htake] at hmap
            refine Or.inr ⟨used ++ [updateLine { zeroLine with key := k } str now errno], m2,
              ks ++ [k], ?_, rfl, ?_, ?_, hnz2⟩
            · have := dbgAddLineHelper_claim 0 k used zeroLine (List.replicate m2 zeroLine)
                str now errno hused rfl (by simp only [MAX_NUM_LINES]; omega)
              rw [List.replicate_succ, this]
              simp [List.append_assoc]
            · simp only [List.length_append, List.length_singleton]; omega
            · have hkin : k ∉ firstKeys ks := by rw [← hmap]; exact hmem
              rw [firstKeys_append_singleton, if_neg hkin, List.take_of_length_le
                (by simp only [List.length_append, List.length_singleton]; omega)]
              simp [hmap, updateLine_key]

/-- C24: a key is claimed once. After any series of `dbgInit` and `dbgAddLine`
calls with non-null keys, made one after the other from the start of the
program, the table (if there is one) has 256 lines, those with a non-null key
come first and hold pairwise distinct keys, and all the others are zero; and
`dbgCountAllLines()` is the number of distinct keys added since the last
successful `dbgInit`, capped at 256 (and 0 without a table). -/
theorem dbg_keys_claimed_once (ops : List DbgOp)
    (hops : ∀ key str now errno, DbgOp.add key str now errno ∈ ops → key ≠ 0) :
    (∀ lines, dbgRun none ops = some lines →
      ∃ used m, lines = used ++ List.replicate m zeroLine ∧ lines.length = 256 ∧
        (∀ l ∈ used, l.key ≠ 0) ∧ (used.map (fun l => l.key)).Nodup) ∧
    dbgCountAllLines (dbgRun none ops) =
      match keysSinceInit ops with
      | none => 0
      | some ks => min 256 ks.dedup.length := by
  rcases dbgRun_invariant ops hops with ⟨h1, h2⟩ | ⟨used, m, ks, h1, h2, hlen, hmap, hnz⟩
  · rw [h1, h2]
    exact ⟨fun lines h => (by cases h), rfl⟩
  · rw [h1, h2]
    have husednz : ∀ x ∈ used, x.key ≠ 0 := by
      intro x hx
      have : x.key ∈ (firstKeys ks).take 256 := by
        rw [← hmap]; exact List.mem_map_of_mem _ hx
      exact hnz _ ((mem_firstKeys ks _).1 (List.mem_of_mem_take this))
    refine ⟨?_, ?_⟩
    · intro lines h
      cases h
      refine ⟨used, m, rfl, by simpa using hlen, husednz, ?_⟩
      rw [hmap]
      exact (firstKeys_nodup ks).sublist (List.take_sublist _ _)
    · have hcount := countLinesLoop_prefix used (List.replicate m zeroLine) 0 husednz
        (by
          intro l hl
          cases m with
          | zero => simp at hl
          | succ j =>
            simp [List.replicate_succ] at hl
            rw [← hl]
            rfl)
        (by simp only [MAX_NUM_LINES]; omega)
      have hl2 : used.length = min 256 ks.dedup.length := by
        rw [← firstKeys_length, ← List.length_take, ← hmap, List.length_map]
      simp only [dbgCountAllLines, hcount, Nat.zero_add]
      exact hl2

/-- Witness for C24: two keys, one of them added twice. -/
theorem dbg_keys_claimed_once_witness :
    dbgCountAllLines (dbgRun none demoOps) =
      match keysSinceInit demoOps with
      | none => 0
      | some ks => min 256 ks.dedup.length :=
  (dbg_keys_claimed_once demoOps (by
    intro key str now errno h
    simp only [demoOps, List.mem_cons, List.mem_singleton, List.not_mem_nil, or_false] at h
    rcases h with h | h | h | h <;> cases h <;> decide)).2

/-! ### The pid namespaces of a process -/

/-- C26: a process that is in one pid namespace only and whose command name is
`NSpid:` has the status line `Name:\tNSpid:` before its line `NSpid:\t4242`.
`nsIsPidInChildNs` takes the name line, the first that contains `NSpid:`,
counts its tokens `NSpid` and the newline, and returns TRUE with `*nsPid = 0`.
For a process with another name it returns TRUE and the innermost pid for two
values, and FALSE with `*nsPid` as it was for one value, for three and when the
file cannot be opened. -/
theorem nsIsPidInChildNs_counts_name_line :
    (fgetsLines 4096 (statusText "NSpid:" "\t4242")).find?
        (fun b => strstr (cstr b) (bytes "NSpid:")) = some (bytes "Name:\tNSpid:\n") ∧
    nsIsPidInChildNs (some (statusText "NSpid:" "\t4242")) 77 = some (true, 0) ∧
    nsIsPidInChildNs (some (statusText "sleep" "\t4242")) 77 = some (false, 77) ∧
    nsIsPidInChildNs (some (statusText "sleep" "\t4242\t17")) 77 = some (true, 17) ∧
    nsIsPidInChildNs (some (statusText "sleep" "\t4242\t17\t1")) 77 = some (false, 77) ∧
    nsIsPidInChildNs none 77 = some (false, 77) := by
  refine ⟨?_, ?_, ?_, ?_, ?_, ?_⟩ <;> decide

/-! ### Starting from a container on the host -/

/-- C27: `joinHostNamespace` never stores anything in its first output buffer,
and it ends by storing the path of `scope` in the second, over the path of the
filter file. In a container of release 1.2.0 where every call succeeds,
`nsHostStart` returns `EXIT_SUCCESS`, the filter file is created as
`/usr/lib/appscope/scope_filter` and `scope` as `/usr/lib/appscope/1.2.0//scope`,
and the last line of the cron script is
` start -f < /usr/lib/appscope/1.2.0//scope`: no command before `start`, and the
binary where the filter file should be. -/
theorem nsHostStart_script_has_no_scope_path :
    (∀ (env : NsEnv) (hostScopePath hostFilterPath : List Nat),
      (joinHostNamespace env hostScopePath hostFilterPath).hostScopePath = hostScopePath) ∧
    joinHostNamespace demoNsEnv [] [] =
      ⟨true, [], bytes "/usr/lib/appscope/1.2.0//scope",
        [(bytes "/usr/lib/appscope/1.2.0/ldscope", bytes "ldscope image"),
          (bytes "/usr/lib/appscope/scope_filter", bytes "allow:\n"),
          (bytes "/usr/lib/appscope/1.2.0//scope", bytes "scope image")]⟩ ∧
    (nsHostStart demoNsEnv).1 = 0 ∧
    (nsHostStart demoNsEnv).2.drop 3 =
      [(SCOPE_SCRIPT_PATH,
          bytes ("#! /bin/bash\ntouch /tmp/scope_test\nrm /etc/cron.d/scope_cron\n"
            ++ " start -f < /usr/lib/appscope/1.2.0//scope\n")),
        (SCOPE_CRON_PATH, SCOPE_CRONTAB)] := by
  refine ⟨?_, by decide, by decide, by decide⟩
  intro env sp fp
  simp only [joinHostNamespace, joinCreateScope]
  repeat' split
  all_goals rfl

end Scope
